import Mathlib

/-!
Verification of the roster consistency/merge engine and the spreadsheet
formula generator of `control.py` (gdi_control), via a shallow embedding.
Python strings are modelled as `List Char`, Python `int` as `Int`,
Python sets of group numbers as `Finset Int`, and fallible code returns
`Except PyError`.
-/

namespace GdiControl

/-- Python strings, modelled as lists of characters (so slicing is
`take`/`drop` and concatenation is `++`). -/
abbrev Str := List Char

/-- Python exception kinds that the embedded code can raise. -/
inductive PyError where
  | valueError (msg : Str)
  | attributeError
  | keyError
  | typeError
  | indexError
  | assertionError (msg : Str)
deriving DecidableEq, Repr

/-- `true` iff the `Except` value is a success. -/
def isOk {ε α : Type} : Except ε α → Bool
  | .ok _ => true
  | .error _ => false

instance {ε α : Type} [DecidableEq ε] [DecidableEq α] : DecidableEq (Except ε α) :=
  fun a b =>
    match a, b with
    | .ok x, .ok y => decidable_of_iff (x = y) (by simp)
    | .error x, .error y => decidable_of_iff (x = y) (by simp)
    | .ok _, .error _ => .isFalse (by simp)
    | .error _, .ok _ => .isFalse (by simp)

/-! ### Decimal numerals: `str(n)` and `int(s)` -/

/-- The character for a single decimal digit (`0 ≤ d ≤ 9`). -/
def digitChar (d : Nat) : Char := Char.ofNat (48 + d)

/-- The numeric value of a decimal digit character. -/
def charVal (c : Char) : Nat := c.toNat - 48

/-- Little-endian base-10 digits of `n`, with explicit fuel (the fuel is
always `n` itself, which suffices since `n / 10 < n` for `n > 0`). -/
def natDigitsAux : Nat → Nat → List Nat
  | _, 0 => []
  | 0, _ + 1 => []
  | fuel + 1, n + 1 => (n + 1) % 10 :: natDigitsAux fuel ((n + 1) / 10)

/-- Little-endian base-10 digits of `n` (empty for `0`). -/
def natDigits (n : Nat) : List Nat := natDigitsAux n n

/-- Python `str(n)` for a natural number: its base-10 numeral. -/
def natRepr (n : Nat) : Str :=
  if n = 0 then [digitChar 0] else (natDigits n).reverse.map digitChar

/-- Python `str(i)` for an integer: sign followed by the numeral. -/
def intRepr (i : Int) : Str :=
  if i < 0 then '-' :: natRepr i.natAbs else natRepr i.natAbs

/-- Numeric value of a digit string (no validation). -/
def natVal (s : Str) : Nat := s.foldl (fun a c => 10 * a + charVal c) 0

/-- Python `int(s)` on a canonical numeral: optional leading `-`, then a
nonempty run of decimal digits; anything else raises `ValueError`. -/
def int_parse (s : Str) : Except PyError Int :=
  match s with
  | [] => .error (.valueError s)
  | c :: rest =>
      if c = '-' then
        if rest ≠ [] ∧ rest.all Char.isDigit then .ok (-(natVal rest : Int))
        else .error (.valueError s)
      else
        if (c :: rest).all Char.isDigit then .ok ((natVal (c :: rest) : Nat) : Int)
        else .error (.valueError s)

/-! ### The cell addressing function

Source (control.py:1255-1267):
```
def spreadsheet_cell_id(x, y, *, fixed=False):
    tmpl = "${}${}" if fixed else "{}{}"
    if x < 26:
        return tmpl.format(chr(65 + x), y + 1)
    elif x < 676:
        first = chr(65 + (x // 26))
        second = chr(65 + (x % 26))
        return tmpl.format(first, second)
    else:
        raise ValueError("spreadsheet_cell_id does not support cells beyond ZZ")
```
Note that the two-letter branch passes `first`, `second` to the template,
so the row number `y + 1` never appears in its output. -/
def spreadsheet_cell_id (x y : Nat) (fixed : Bool) : Except PyError Str :=
  let tmpl : Str → Str → Str := fun a b =>
    if fixed then '$' :: a ++ '$' :: b else a ++ b
  if x < 26 then
    .ok (tmpl [Char.ofNat (65 + x)] (natRepr (y + 1)))
  else if x < 676 then
    .ok (tmpl [Char.ofNat (65 + (x / 26))] [Char.ofNat (65 + (x % 26))])
  else
    .error (.valueError "spreadsheet_cell_id does not support cells beyond ZZ".data)

/-! ### Numeral lemmas -/

theorem charVal_digitChar {d : Nat} (h : d < 10) : charVal (digitChar d) = d := by
  interval_cases d <;> decide

theorem digitChar_isDigit {d : Nat} (h : d < 10) : (digitChar d).isDigit = true := by
  interval_cases d <;> decide

theorem natDigitsAux_head {fuel n : Nat} :
    natDigitsAux (fuel + 1) (n + 1) = (n + 1) % 10 :: natDigitsAux fuel ((n + 1) / 10) := rfl

theorem natDigitsAux_lt {fuel n : Nat} : ∀ d ∈ natDigitsAux fuel n, d < 10 := by
  induction fuel generalizing n with
  | zero => cases n <;> simp [natDigitsAux]
  | succ fuel ih =>
      cases n with
      | zero => simp [natDigitsAux]
      | succ m =>
          intro d hd
          rw [natDigitsAux_head] at hd
          rcases List.mem_cons.mp hd with h | h
          · omega
          · exact ih d h

theorem foldr_natDigitsAux {fuel n : Nat} (h : n ≤ fuel) :
    (natDigitsAux fuel n).foldr (fun d a => 10 * a + charVal (digitChar d)) 0 = n := by
  induction fuel generalizing n with
  | zero =>
      interval_cases n
      simp [natDigitsAux]
  | succ fuel ih =>
      cases n with
      | zero => simp [natDigitsAux]
      | succ m =>
          rw [natDigitsAux_head]
          have hdiv : (m + 1) / 10 ≤ fuel := by
            have := Nat.div_lt_self (Nat.succ_pos m) (by norm_num : 1 < 10)
            omega
          simp only [List.foldr_cons, ih hdiv, charVal_digitChar (Nat.mod_lt _ (by norm_num))]
          omega

theorem natVal_natRepr (n : Nat) : natVal (natRepr n) = n := by
  by_cases h : n = 0
  · subst h; decide
  · unfold natRepr natVal
    rw [if_neg h, List.map_reverse, List.foldl_reverse, List.foldr_map]
    exact foldr_natDigitsAux le_rfl

theorem natRepr_ne_nil (n : Nat) : natRepr n ≠ [] := by
  unfold natRepr
  by_cases h : n = 0
  · simp [h]
  · rw [if_neg h]
    obtain ⟨m, rfl⟩ := Nat.exists_eq_succ_of_ne_zero h
    simp [natDigits, natDigitsAux_head]

theorem natRepr_all_digits (n : Nat) : (natRepr n).all Char.isDigit = true := by
  rw [List.all_eq_true]
  intro c hc
  unfold natRepr at hc
  by_cases h : n = 0
  · rw [if_pos h] at hc
    simp at hc
    subst hc; decide
  · rw [if_neg h] at hc
    rw [List.map_reverse, List.mem_reverse, List.mem_map] at hc
    obtain ⟨d, hd, rfl⟩ := hc
    exact digitChar_isDigit (natDigitsAux_lt d hd)

theorem isDigit_ne_dash {c : Char} (h : c.isDigit = true) : c ≠ '-' := by
  intro he; subst he; simp at h

theorem int_parse_natRepr (n : Nat) : int_parse (natRepr n) = .ok (n : Int) := by
  obtain ⟨c, rest, hs⟩ : ∃ c rest, natRepr n = c :: rest := by
    cases hr : natRepr n with
    | nil => exact absurd hr (natRepr_ne_nil n)
    | cons c rest => exact ⟨c, rest, rfl⟩
  have hall : (c :: rest).all Char.isDigit = true := hs ▸ natRepr_all_digits n
  have hc : c.isDigit = true := by
    rw [List.all_cons, Bool.and_eq_true] at hall
    exact hall.1
  rw [hs]
  simp only [int_parse]
  rw [if_neg (isDigit_ne_dash hc), if_pos hall, ← hs]
  rw [natVal_natRepr]

theorem int_parse_intRepr (i : Int) : int_parse (intRepr i) = .ok i := by
  unfold intRepr
  by_cases h : i < 0
  · rw [if_pos h]
    have h1 : natRepr i.natAbs ≠ [] := natRepr_ne_nil _
    have h2 : (natRepr i.natAbs).all Char.isDigit = true := natRepr_all_digits _
    rw [int_parse]
    simp only [reduceCtorEq, reduceIte, h1, h2, ne_eq, not_false_iff, and_self, if_pos]
    rw [natVal_natRepr]
    congr 1
    omega
  · rw [if_neg h]
    rw [int_parse_natRepr]
    congr 1
    omega

/-- C2: code_bug evidence. The single-letter branch and the error branch behave
as the claim says ((0,0) ↦ "A1", (25,0) ↦ "Z1", absolute (0,0) ↦ "$A$1",
column ≥ 676 an error), but the two-letter branch drops the row number and is
off by one in the first letter: (26,0) yields "BA", not "AA1". -/
theorem spreadsheet_cell_id_spec :
    spreadsheet_cell_id 0 0 false = .ok ['A', '1'] ∧
    spreadsheet_cell_id 25 0 false = .ok ['Z', '1'] ∧
    spreadsheet_cell_id 0 0 true = .ok ['$', 'A', '$', '1'] ∧
    (∀ x y fixed, 676 ≤ x → isOk (spreadsheet_cell_id x y fixed) = false) ∧
    spreadsheet_cell_id 26 0 false = .ok ['B', 'A'] ∧
    ['B', 'A'] ≠ ['A', 'A', '1'] := by
  refine ⟨by decide, by decide, by decide, ?_, by decide, by decide⟩
  intro x y fixed h
  have h1 : ¬ x < 26 := by omega
  have h2 : ¬ x < 676 := by omega
  simp [spreadsheet_cell_id, h1, h2, isOk]

/-- Witness for the hypothesised conjunct of `spreadsheet_cell_id_spec`. -/
theorem spreadsheet_cell_id_spec_witness :
    isOk (spreadsheet_cell_id 700 3 true) = false :=
  spreadsheet_cell_id_spec.2.2.2.1 700 3 true (by norm_num)

/-! ### Dates

`datetime.datetime` values, their `isoformat` serialization, and the
`strptime` parsers used by `parse_date` (control.py:470-503). -/

structure DateTime where
  year : Nat
  month : Nat
  day : Nat
  hour : Nat
  minute : Nat
  second : Nat
  microsecond : Nat
deriving DecidableEq, Repr

/-- The field bounds `datetime.datetime` guarantees for every constructed
value. -/
def DateTime.pyvalid (d : DateTime) : Prop :=
  1 ≤ d.year ∧ d.year ≤ 9999 ∧ 1 ≤ d.month ∧ d.month ≤ 12 ∧ 1 ≤ d.day ∧
  d.day ≤ 31 ∧ d.hour ≤ 23 ∧ d.minute ≤ 59 ∧ d.second ≤ 59 ∧
  d.microsecond ≤ 999999

instance (d : DateTime) : Decidable d.pyvalid := by
  unfold DateTime.pyvalid; infer_instance

/-- `str(n)` zero-padded on the left to width `w` (CPython renders every
`isoformat`/`strftime` field with a fixed-width `%0*d` conversion). -/
def padRepr (w n : Nat) : Str :=
  List.replicate (w - (natRepr n).length) '0' ++ natRepr n

/-- `datetime.isoformat()`: `YYYY-MM-DDTHH:MM:SS`, followed by
`.ffffff` exactly when the microsecond field is non-zero. -/
def DateTime.isoformat (d : DateTime) : Str :=
  padRepr 4 d.year ++ '-' :: padRepr 2 d.month ++ '-' :: padRepr 2 d.day ++
  'T' :: padRepr 2 d.hour ++ ':' :: padRepr 2 d.minute ++ ':' :: padRepr 2 d.second ++
  (if d.microsecond = 0 then [] else '.' :: padRepr 6 d.microsecond)

/-- Read exactly `w` decimal digits off the front of `s`. -/
def parseDigits (w : Nat) (s : Str) : Option (Nat × Str) :=
  let pre := s.take w
  if pre.length = w ∧ pre.all Char.isDigit then some (natVal pre, s.drop w)
  else none

/-- Expect the literal character `c` at the front of `s`. -/
def expectChar (c : Char) (s : Str) : Option Str :=
  match s with
  | d :: rest => if d = c then some rest else none
  | [] => none

/-- `datetime.strptime(s, ...)` for the pattern year-month-dayThour:minute:second,
restricted to canonical zero-padded numerals (the only shape this repository
feeds it); the range checks mirror `datetime` construction. -/
def strptime_iso (s : Str) : Option DateTime := do
  let (y, s) ← parseDigits 4 s
  let s ← expectChar '-' s
  let (mo, s) ← parseDigits 2 s
  let s ← expectChar '-' s
  let (da, s) ← parseDigits 2 s
  let s ← expectChar 'T' s
  let (h, s) ← parseDigits 2 s
  let s ← expectChar ':' s
  let (mi, s) ← parseDigits 2 s
  let s ← expectChar ':' s
  let (se, s) ← parseDigits 2 s
  let d : DateTime := ⟨y, mo, da, h, mi, se, 0⟩
  if s = [] ∧ d.pyvalid then some d else none

/-- `strptime` for the pattern day.month.year,hour:minute (canonical widths). -/
def strptime_dmY_HM (s : Str) : Option DateTime := do
  let (da, s) ← parseDigits 2 s
  let s ← expectChar '.' s
  let (mo, s) ← parseDigits 2 s
  let s ← expectChar '.' s
  let (y, s) ← parseDigits 4 s
  let s ← expectChar ',' s
  let (h, s) ← parseDigits 2 s
  let s ← expectChar ':' s
  let (mi, s) ← parseDigits 2 s
  let d : DateTime := ⟨y, mo, da, h, mi, 0, 0⟩
  if s = [] ∧ d.pyvalid then some d else none

/-- `strptime` for the pattern day-month-year (canonical widths). -/
def strptime_dmY (s : Str) : Option DateTime := do
  let (da, s) ← parseDigits 2 s
  let s ← expectChar '-' s
  let (mo, s) ← parseDigits 2 s
  let s ← expectChar '-' s
  let (y, s) ← parseDigits 4 s
  let d : DateTime := ⟨y, mo, da, 0, 0, 0, 0⟩
  if s = [] ∧ d.pyvalid then some d else none

/-- `strptime` for the pattern year-month-day (canonical widths). -/
def strptime_Ymd (s : Str) : Option DateTime := do
  let (y, s) ← parseDigits 4 s
  let s ← expectChar '-' s
  let (mo, s) ← parseDigits 2 s
  let s ← expectChar '-' s
  let (da, s) ← parseDigits 2 s
  let d : DateTime := ⟨y, mo, da, 0, 0, 0, 0⟩
  if s = [] ∧ d.pyvalid then some d else none

/-- `parse_iso8601` (control.py:470-480): truncate to the first 19 characters,
then parse as year-month-dayThour:minute:second. Everything after position 19
— in particular a `.ffffff` microsecond suffix — is discarded. -/
def parse_iso8601 (s : Str) : Option DateTime := strptime_iso (s.take 19)

/-- `parse_date` (control.py:483-503): try the four formats in order, raise
`ValueError` if all fail. -/
def parse_date (s : Str) : Except PyError DateTime :=
  match parse_iso8601 s with
  | some d => .ok d
  | none =>
    match strptime_dmY_HM s with
    | some d => .ok d
    | none =>
      match strptime_dmY s with
      | some d => .ok d
      | none =>
        match strptime_Ymd s with
        | some d => .ok d
        | none => .error (.valueError "Is the date compliant to ISO 8601?".data)

/-! ### The Student data model -/

structure Student where
  matrnr : Int
  group : Finset Int
  lastname : Str
  firstname : Str
  degree : Str
  regdate : DateTime
  email : Str
  grade : Int
  /-- the `_wikiname` attribute: explicit override, empty = unset -/
  wikinameStored : Str
deriving DecidableEq

/-- The class-attribute defaults of `Student` (control.py:550-558). The default
`regdate` is `datetime.datetime.now()` evaluated once at class-definition time;
its concrete value never influences a claim, so we fix an arbitrary instant. -/
def defaultStudent : Student :=
  { matrnr := 0, group := ∅, lastname := [], firstname := [], degree := [],
    regdate := ⟨2014, 10, 18, 23, 47, 6, 722897⟩, email := [], grade := 0,
    wikinameStored := [] }

/-- A character the `ascii` codec accepts: code point below 128. -/
def isAsciiChar (c : Char) : Bool := c.toNat < 128

/-- Character-level model of
`unicodedata.normalize('NFKD', s).encode('ascii', 'ignore')`: each character is
replaced by the ASCII residue of its NFKD decomposition. ASCII characters are
fixed. The table below is the restriction of that map to a finite repertoire,
checked entry by entry against the Unicode decomposition data: accented Latin
letters decompose to their base letter plus combining marks (the marks are
then dropped by the ascii/ignore encoding), the fi ligature and the
superscript digits have compatibility decompositions to plain `fi` and
digits, and the small and fullwidth hyphen-minus forms (U+FE63, U+FF0D) have
compatibility decompositions to the plain hyphen-minus. `droppedChars` lists
characters verified to have no decomposition at all, so the ascii/ignore
encoding removes them entirely and the discard fallback is exact for them.
Characters outside `modeledChar` are not modeled; the theorems about the
identity derivation confine the name fields to the modeled repertoire. -/
def decomposeTable : List (List Char × List Char) :=
  [(['ä', 'á', 'à', 'â', 'ã', 'å', 'ā'], ['a']),
   (['Ä', 'Á', 'À', 'Â', 'Ã', 'Å', 'Ā'], ['A']),
   (['ö', 'ó', 'ò', 'ô', 'õ', 'ő', 'ō'], ['o']),
   (['Ö', 'Ó', 'Ò', 'Ô', 'Õ', 'Ő', 'Ō'], ['O']),
   (['ü', 'ú', 'ù', 'û', 'ů', 'ū'], ['u']),
   (['Ü', 'Ú', 'Ù', 'Û', 'Ů', 'Ū'], ['U']),
   (['é', 'è', 'ê', 'ë', 'ě', 'ē'], ['e']),
   (['É', 'È', 'Ê', 'Ë', 'Ě', 'Ē'], ['E']),
   (['í', 'ì', 'î', 'ï', 'ī'], ['i']),
   (['Í', 'Ì', 'Î', 'Ï', 'Ī'], ['I']),
   (['ý', 'ÿ'], ['y']), (['Ý'], ['Y']),
   (['ñ', 'ń'], ['n']), (['Ñ', 'Ń'], ['N']),
   (['ç', 'č', 'ć'], ['c']), (['Ç', 'Č', 'Ć'], ['C']),
   (['š', 'ś'], ['s']), (['Š', 'Ś'], ['S']),
   (['ž', 'ź'], ['z']), (['Ž', 'Ź'], ['Z']),
   (['ř'], ['r']), (['Ř'], ['R']),
   (['ť'], ['t']), (['Ť'], ['T']),
   (['ď'], ['d']), (['Ď'], ['D']),
   (['¹'], ['1']), (['²'], ['2']), (['³'], ['3']),
   ([Char.ofNat 0xFB01], ['f', 'i']),
   ([Char.ofNat 0xFE63, Char.ofNat 0xFF0D], ['-'])]

/-- Non-ASCII characters whose NFKD form has no ASCII residue at all (none of
them has a Unicode decomposition), so `encode('ascii', 'ignore')` drops them
completely. -/
def droppedChars : List Char :=
  ['ß', 'ø', 'Ø', 'æ', 'Æ', 'ð', 'Ð', 'þ', 'Þ', 'ł', 'Ł', 'đ', 'Đ']

def asciiDecompose (c : Char) : List Char :=
  if isAsciiChar c then [c]
  else ((decomposeTable.find? (fun p => p.1.contains c)).map Prod.snd).getD []

/-- The repertoire on which `asciiDecompose` provably agrees with Python's
NFKD-then-ascii/ignore pipeline: ASCII characters, the tabulated
decomposable characters, and the characters verified to vanish. -/
def modeledChar (c : Char) : Bool :=
  isAsciiChar c || decomposeTable.any (fun p => p.1.contains c) ||
    droppedChars.contains c

/-- The ASCII characters Python's `str.split()` treats as whitespace. -/
def isSpaceChar (c : Char) : Bool :=
  c = ' ' ∨ c = Char.ofNat 9 ∨ c = Char.ofNat 10 ∨ c = Char.ofNat 11 ∨
  c = Char.ofNat 12 ∨ c = Char.ofNat 13

/-- Python `str.split()` with no separator: split on whitespace runs,
discarding empty pieces. -/
def pySplit (s : Str) : List Str :=
  (s.splitOnP isSpaceChar).filter (fun t => t ≠ [])

/-- Python `str.title()` on ASCII text: a cased character becomes uppercase
after a non-cased character and lowercase after a cased one. -/
def pyTitleAux : Bool → Str → Str
  | _, [] => []
  | prevCased, c :: rest =>
      if c.isAlpha then
        (if prevCased then c.toLower else c.toUpper) :: pyTitleAux true rest
      else
        c :: pyTitleAux false rest

def pyTitle (s : Str) : Str := pyTitleAux false s

/-- The wikiname derivation (control.py:597-609): the stored override when
non-empty, else "first last" with hyphens and apostrophes replaced by spaces,
NFKD-normalised to ASCII, split on whitespace, each token `title()`-cased, and
the tokens joined with no separator. -/
def Student.wikiname (s : Student) : Str :=
  if s.wikinameStored ≠ [] then s.wikinameStored
  else
    let name := s.firstname ++ ' ' :: s.lastname
    let name := name.map (fun c => if c = '-' then ' ' else c)
    let name := name.map (fun c => if c = Char.ofNat 39 then ' ' else c)
    let name := (name.map asciiDecompose).flatten
    ((pySplit name).map pyTitle).flatten

/-- `Student.copy` (control.py:643-654): field-by-field copy (the group set is
rebuilt element by element). -/
def Student.copy (s : Student) : Student :=
  { matrnr := s.matrnr, group := s.group, lastname := s.lastname,
    firstname := s.firstname, degree := s.degree, regdate := s.regdate,
    email := s.email, grade := s.grade, wikinameStored := s.wikinameStored }

theorem Student.copy_eq (s : Student) : s.copy = s := rfl

theorem Student.map_copy (l : List Student) : l.map Student.copy = l := by
  have : Student.copy = id := funext Student.copy_eq
  rw [this, List.map_id]

/-! ### The StudentDatabase operations -/

/-- A roster value: the `students` collection of a `StudentDatabase`,
modelled as a list (Python iterates a set in unspecified order; every
roster-level statement below is insensitive to that order). -/
abbrev Roster := List Student

/-- `__contains__` (control.py:894-898): membership by matriculation number. -/
def dbContains (db : Roster) (member : Student) : Bool :=
  db.any (fun s => s.matrnr == member.matrnr)

/-- The set-bookkeeping uniqueness scan shared by the first two loops of
`consistency_check` (control.py:698-710): walk the records, raising on the
first repeated key. -/
def checkUniqueBy {κ : Type} [DecidableEq κ] (key : Student → κ) (msg : Str) :
    Roster → List κ → Except PyError Unit
  | [], _ => .ok ()
  | s :: rest, seen =>
      if key s ∈ seen then .error (.valueError msg)
      else checkUniqueBy key msg rest (key s :: seen)

/-- First loop of `consistency_check`: every matriculation number unique. -/
def checkMatrnrs (db : Roster) (seen : List Int) : Except PyError Unit :=
  checkUniqueBy Student.matrnr "Matriculation number contained twice in dataset".data db seen

/-- Second loop of `consistency_check`: every wikiname unique. -/
def checkWikinames (db : Roster) (seen : List Str) : Except PyError Unit :=
  checkUniqueBy Student.wikiname "Wikiname contained twice in dataset".data db seen

/-- Third loop of `consistency_check`: at most one non-zero group each. -/
def checkGroups : Roster → Except PyError Unit
  | [] => .ok ()
  | s :: rest =>
      if 1 < (s.group \ {0}).card then
        .error (.valueError "Student registered in more than 1 non-zero groups".data)
      else checkGroups rest

/-- `consistency_check` (control.py:694-716). -/
def consistency_check (db : Roster) : Except PyError Unit := do
  let _ ← checkMatrnrs db []
  let _ ← checkWikinames db []
  checkGroups db

/-- The three roster invariants of the data model. -/
def rosterInvariants (db : Roster) : Prop :=
  (db.map Student.matrnr).Nodup ∧ (db.map Student.wikiname).Nodup ∧
  ∀ s ∈ db, (s.group \ {0}).card ≤ 1

instance (db : Roster) : Decidable (rosterInvariants db) := by
  unfold rosterInvariants; infer_instance

/-- Python `set` identification of `Student` objects: an insert is dropped iff
an existing element is `==` to it (equal `matrnr`, control.py:656-657) and
falls in the same hash bucket (`hash` of matrnr, firstname, lastname,
control.py:659-661; collisions between distinct strings are not modelled). -/
def sameSetKey (s t : Student) : Bool :=
  s.matrnr == t.matrnr && s.firstname == t.firstname && s.lastname == t.lastname

/-- Insertion into a Python set of students, keeping the first occurrence. -/
def pySetInsert (acc : Roster) (s : Student) : Roster :=
  if acc.any (fun t => sameSetKey t s) then acc else acc ++ [s]

/-- The Python set built from the given elements in order. -/
def pySetOfList (l : Roster) : Roster := l.foldl pySetInsert []

/-- `StudentDatabase.__init__` (control.py:682-692): copy every record into a
fresh set, raise if the copy collapsed records, then run the consistency
check; the new `students` collection is the database. -/
def mkStudentDatabase (students : Roster) : Except PyError Roster :=
  let copied := pySetOfList (students.map Student.copy)
  if students.length ≠ copied.length then
    .error (.valueError "Some student got lost by by creating a hash set. Internal error".data)
  else do
    let _ ← consistency_check copied
    .ok copied

/-- `filtered` (control.py:741-747): keep the records satisfying every
selector and pass them through the constructor. -/
def filtered (db : Roster) (selectors : List (Student → Bool)) : Except PyError Roster :=
  mkStudentDatabase (db.filter (fun s => selectors.all (fun sel => sel s)))

/-- Python `str.lower()` (ASCII field data). -/
def strLower (s : Str) : Str := s.map Char.toLower

/-- Chronological key of a datetime (strictly monotone on `pyvalid` values),
standing in for Python's field-lexicographic datetime comparison. -/
def DateTime.key (d : DateTime) : Nat :=
  ((((((d.year * 13 + d.month) * 32 + d.day) * 24 + d.hour) * 60 + d.minute)
    * 60 + d.second) * 1000000) + d.microsecond

/-- The keyword arguments of `StudentDatabase.filter` (control.py:749-751);
`none` models an omitted argument (Python `None`). -/
structure FilterArgs where
  matrnr : Option Int := none
  group : Option Int := none
  firstname : Option Str := none
  lastname : Option Str := none
  wikiname : Option Str := none
  degree : Option Str := none
  regdate : Option DateTime := none
  email : Option Str := none
  grade : Option Int := none
  regdate_smaller : Option Bool := none
  regdate_greater : Option Bool := none
  not_matrnr : Option Int := none

instance : Inhabited FilterArgs := ⟨{}⟩

/-- Python truthiness of an optional `int` (`None` and `0` are falsy). -/
def truthyInt : Option Int → Bool
  | none => false
  | some i => i != 0

/-- Python truthiness of an optional string (`None` and `''` are falsy). -/
def truthyStr : Option Str → Bool
  | none => false
  | some s => !s.isEmpty

/-- Python truthiness of an optional datetime (every datetime is truthy). -/
def truthyDate : Option DateTime → Bool
  | none => false
  | some _ => true

/-- Python truthiness of an optional bool. -/
def truthyBool : Option Bool → Bool
  | none => false
  | some b => b

/-- `StudentDatabase.filter` (control.py:749-784): each truthy keyword argument
appends one selector; the record must satisfy their conjunction. -/
def StudentDatabase.filter (db : Roster) (a : FilterArgs) : Except PyError Roster :=
  let selectors : List (Student → Bool) :=
    (if truthyInt a.matrnr then [fun (s : Student) => s.matrnr == a.matrnr.getD 0] else []) ++
    (if truthyInt a.not_matrnr then [fun (s : Student) => s.matrnr != a.not_matrnr.getD 0] else []) ++
    (if truthyInt a.group then [fun (s : Student) => decide (a.group.getD 0 ∈ s.group)] else []) ++
    (if truthyStr a.firstname then
      [fun (s : Student) => strLower s.firstname == strLower (a.firstname.getD [])] else []) ++
    (if truthyStr a.lastname then
      [fun (s : Student) => strLower s.lastname == strLower (a.lastname.getD [])] else []) ++
    (if truthyStr a.wikiname then [fun (s : Student) => s.wikiname == a.wikiname.getD []] else []) ++
    (if truthyStr a.degree then [fun (s : Student) => s.degree == a.degree.getD []] else []) ++
    (if truthyDate a.regdate then
      (if truthyBool a.regdate_smaller then
        [fun (s : Student) => decide (s.regdate.key < (a.regdate.getD defaultStudent.regdate).key)]
      else if truthyBool a.regdate_greater then
        [fun (s : Student) => decide ((a.regdate.getD defaultStudent.regdate).key < s.regdate.key)]
      else
        [fun (s : Student) => s.regdate == a.regdate.getD defaultStudent.regdate]) else []) ++
    (if truthyStr a.email then [fun (s : Student) => s.email == a.email.getD []] else []) ++
    (if truthyInt a.grade then [fun (s : Student) => s.grade == a.grade.getD 0] else [])
  filtered db selectors

/-- Lexicographic-by-code-point string comparison (Python `str <`). -/
def strLt : Str → Str → Bool
  | [], [] => false
  | [], _ :: _ => true
  | _ :: _, [] => false
  | a :: as, b :: bs => if a < b then true else if b < a then false else strLt as bs

/-- Python `str <=`. -/
def strLe (a b : Str) : Bool := !strLt b a

/-- `sorted_by_wikiname` (control.py:804-807): sort (stably) by wikiname and
rebuild the database. -/
def sorted_by_wikiname (db : Roster) : Except PyError Roster :=
  mkStudentDatabase (db.insertionSort (fun s t => strLe s.wikiname t.wikiname = true))

/-- `sorted_by_matriculation_number` (control.py:809-812). -/
def sorted_by_matrnr (db : Roster) : Except PyError Roster :=
  mkStudentDatabase (db.insertionSort (fun s t => s.matrnr ≤ t.matrnr))

/-- `add` (control.py:819-831). In the duplicate branch the source reads
`self.group` on the `StudentDatabase` object itself (control.py:827) — an
attribute the class never defines — so Python raises `AttributeError` there,
before any merge or consistency check can run. In the other branch a copy is
inserted (never dropped: set insertion only drops `==` elements and no equal
matriculation number is present) and the consistency check re-runs. -/
def StudentDatabase.add (db : Roster) (student : Student) : Except PyError Roster :=
  if dbContains db student then .error .attributeError
  else do
    let db2 := db ++ [student.copy]
    let _ ← consistency_check db2
    .ok db2

/-- `union` (control.py:833-857): copy all of `self`; walk `other`, merging the
group set into the existing copy when the matriculation number is already
known to `self` (the `assoc` dict is keyed on `self`'s numbers only), else
appending a copy; finally rebuild through the constructor. -/
def unionStep (aNums : List Int) (acc : Roster) (s : Student) : Roster :=
  if s.matrnr ∈ aNums then
    acc.map (fun t => if t.matrnr = s.matrnr then { t with group := t.group ∪ s.group } else t)
  else acc ++ [s.copy]

def StudentDatabase.union (a b : Roster) : Except PyError Roster :=
  mkStudentDatabase (b.foldl (unionStep (a.map Student.matrnr)) (a.map Student.copy))

/-- `difference` (control.py:859-868): copies of the records of `self` whose
matriculation number does not occur in `other`, rebuilt through the
constructor. -/
def StudentDatabase.difference (a b : Roster) : Except PyError Roster :=
  mkStudentDatabase ((a.filter (fun s => !dbContains b s)).map Student.copy)

/-! ### Characterizing the consistency check and the constructor -/

theorem checkUniqueBy_ok_iff {κ : Type} [DecidableEq κ] (key : Student → κ) (msg : Str)
    (db : Roster) (seen : List κ) :
    checkUniqueBy key msg db seen = .ok () ↔
      ((db.map key).Nodup ∧ ∀ s ∈ db, key s ∉ seen) := by
  induction db generalizing seen with
  | nil => simp [checkUniqueBy]
  | cons s rest ih =>
      by_cases h : key s ∈ seen
      · rw [checkUniqueBy, if_pos h]
        constructor
        · intro hcon; cases hcon
        · rintro ⟨-, hall⟩
          exact absurd h (hall s (List.mem_cons_self s rest))
      · rw [checkUniqueBy, if_neg h, ih]
        simp only [List.map_cons, List.nodup_cons, List.mem_cons, List.mem_map]
        constructor
        · rintro ⟨hnd, hall⟩
          refine ⟨⟨?_, hnd⟩, ?_⟩
          · rintro ⟨t, ht, heq⟩
            exact hall t ht (by simp [heq])
          · rintro t (rfl | ht)
            · exact h
            · intro hseen
              exact hall t ht (by simp [hseen])
        · rintro ⟨⟨hne, hnd⟩, hall⟩
          refine ⟨hnd, ?_⟩
          intro t ht hmem
          rcases hmem with heq | hseen
          · exact hne ⟨t, ht, heq⟩
          · exact hall t (Or.inr ht) hseen

theorem checkGroups_ok_iff (db : Roster) :
    checkGroups db = .ok () ↔ ∀ s ∈ db, (s.group \ {0}).card ≤ 1 := by
  induction db with
  | nil => simp [checkGroups]
  | cons s rest ih =>
      by_cases h : 1 < (s.group \ {0}).card
      · rw [checkGroups, if_pos h]
        constructor
        · intro hcon; cases hcon
        · intro hall
          exact absurd (hall s (List.mem_cons_self s rest)) (by omega)
      · rw [checkGroups, if_neg h, ih]
        simp only [List.forall_mem_cons]
        constructor
        · intro hall
          exact ⟨by omega, hall⟩
        · exact fun hall => hall.2

theorem consistency_check_ok_iff (db : Roster) :
    consistency_check db = .ok () ↔ rosterInvariants db := by
  have e1 := checkUniqueBy_ok_iff Student.matrnr
    "Matriculation number contained twice in dataset".data db []
  have e2 := checkUniqueBy_ok_iff Student.wikiname
    "Wikiname contained twice in dataset".data db []
  have e3 := checkGroups_ok_iff db
  unfold consistency_check checkMatrnrs checkWikinames rosterInvariants
  cases h1 : checkUniqueBy Student.matrnr
      "Matriculation number contained twice in dataset".data db [] with
  | error e =>
      rw [h1] at e1
      simp only [h1, Bind.bind, Except.bind]
      constructor
      · intro hcon; cases hcon
      · rintro ⟨hnd, -, -⟩
        have hcon : Except.error (α := Unit) e = Except.ok () := e1.mpr ⟨hnd, by simp⟩
        cases hcon
  | ok u =>
      obtain rfl : u = () := rfl
      rw [h1] at e1
      cases h2 : checkUniqueBy Student.wikiname
          "Wikiname contained twice in dataset".data db [] with
      | error e =>
          rw [h2] at e2
          simp only [h1, h2, Bind.bind, Except.bind]
          constructor
          · intro hcon; cases hcon
          · rintro ⟨-, hnd, -⟩
            have hcon : Except.error (α := Unit) e = Except.ok () := e2.mpr ⟨hnd, by simp⟩
            cases hcon
      | ok v =>
          obtain rfl : v = () := rfl
          rw [h2] at e2
          simp only [h1, h2, Bind.bind, Except.bind]
          rw [e3]
          constructor
          · intro hg
            exact ⟨(e1.mp rfl).1, (e2.mp rfl).1, hg⟩
          · rintro ⟨-, -, hg⟩
            exact hg

theorem sameSetKey_eq_false_of_ne {s t : Student} (h : t.matrnr ≠ s.matrnr) :
    sameSetKey t s = false := by
  simp [sameSetKey]
  intro he
  exact absurd he h

theorem pySetInsert_eq_or (acc : Roster) (s : Student) :
    pySetInsert acc s = acc ∨ pySetInsert acc s = acc ++ [s] := by
  unfold pySetInsert
  by_cases h : acc.any (fun t => sameSetKey t s) = true
  · rw [if_pos h]; exact Or.inl rfl
  · rw [if_neg h]; exact Or.inr rfl

theorem pySetInsert_eq_append {acc : Roster} {s : Student}
    (h : acc.any (fun t => sameSetKey t s) = false) :
    pySetInsert acc s = acc ++ [s] := by
  unfold pySetInsert
  rw [if_neg (by simp [h])]

theorem foldl_pySetInsert_length (l : Roster) :
    ∀ acc : Roster, (l.foldl pySetInsert acc).length ≤ acc.length + l.length := by
  induction l with
  | nil => simp
  | cons s rest ih =>
      intro acc
      rw [List.foldl_cons]
      rcases pySetInsert_eq_or acc s with h | h <;> rw [h]
      · have := ih acc
        simp only [List.length_cons]
        omega
      · have := ih (acc ++ [s])
        simp only [List.length_append, List.length_cons, List.length_nil] at this ⊢
        omega

theorem foldl_pySetInsert_of_length (l : Roster) :
    ∀ acc : Roster, (l.foldl pySetInsert acc).length = acc.length + l.length →
      l.foldl pySetInsert acc = acc ++ l := by
  induction l with
  | nil => simp
  | cons s rest ih =>
      intro acc hlen
      rw [List.foldl_cons] at hlen ⊢
      rcases pySetInsert_eq_or acc s with h | h <;> rw [h] at hlen ⊢
      · exfalso
        have := foldl_pySetInsert_length rest acc
        simp only [List.length_cons] at hlen
        omega
      · have heq : (rest.foldl pySetInsert (acc ++ [s])).length =
            (acc ++ [s]).length + rest.length := by
          simp only [List.length_append, List.length_cons, List.length_nil] at hlen ⊢
          omega
        rw [ih (acc ++ [s]) heq]
        simp

theorem foldl_pySetInsert_nodup (l : Roster) :
    ∀ acc : Roster, ((acc ++ l).map Student.matrnr).Nodup →
      l.foldl pySetInsert acc = acc ++ l := by
  induction l with
  | nil => simp
  | cons s rest ih =>
      intro acc hnd
      have hkey : acc.any (fun t => sameSetKey t s) = false := by
        rw [List.any_eq_false]
        intro t ht
        have hne : t.matrnr ≠ s.matrnr := by
          rw [List.map_append, List.nodup_append] at hnd
          intro he
          exact hnd.2.2 (List.mem_map_of_mem _ ht) (by simp [he])
        simp [sameSetKey_eq_false_of_ne hne]
      rw [List.foldl_cons, pySetInsert_eq_append hkey]
      have hnd2 : (((acc ++ [s]) ++ rest).map Student.matrnr).Nodup := by
        simpa using hnd
      rw [ih (acc ++ [s]) hnd2]
      simp

theorem pySetOfList_eq_self {l : Roster} (h : (l.map Student.matrnr).Nodup) :
    pySetOfList l = l := by
  unfold pySetOfList
  simpa using foldl_pySetInsert_nodup l [] (by simpa using h)

theorem mkStudentDatabase_ok {l r : Roster} (h : mkStudentDatabase l = .ok r) :
    r = l ∧ rosterInvariants l := by
  unfold mkStudentDatabase at h
  rw [Student.map_copy] at h
  by_cases hl : l.length ≠ (pySetOfList l).length
  · rw [if_pos hl] at h
    cases h
  · rw [if_neg hl] at h
    push_neg at hl
    have hset : pySetOfList l = l :=
      foldl_pySetInsert_of_length l [] (by simpa using hl.symm)
    rw [hset] at h
    cases hc : consistency_check l with
    | error e =>
        rw [hc] at h
        simp [Bind.bind, Except.bind] at h
    | ok u =>
        rw [hc] at h
        simp only [Bind.bind, Except.bind] at h
        have hrl : l = r := by cases h; rfl
        subst hrl
        exact ⟨rfl, (consistency_check_ok_iff l).mp (by rw [hc])⟩

theorem mkStudentDatabase_ok_of_invariants {l : Roster} (h : rosterInvariants l) :
    mkStudentDatabase l = .ok l := by
  unfold mkStudentDatabase
  rw [Student.map_copy]
  have hset : pySetOfList l = l := pySetOfList_eq_self h.1
  rw [hset, if_neg (by simp)]
  have hc : consistency_check l = .ok () := (consistency_check_ok_iff l).mpr h
  simp [hc, Bind.bind, Except.bind]

theorem mkStudentDatabase_error_of_not_invariants {l : Roster}
    (h : ¬ rosterInvariants l) : isOk (mkStudentDatabase l) = false := by
  cases he : mkStudentDatabase l with
  | error e => rfl
  | ok r => exact absurd (mkStudentDatabase_ok he).2 h

/-- C4: every roster successfully returned by a roster-producing operation
(construction, union, difference, filter) satisfies the three roster
invariants — no two records share a matriculation number, no two records
share a derived identity, at most one non-zero group each — and a collection
violating any invariant is rejected with an error by the constructor instead
of being returned. -/
theorem roster_ops_validate :
    (∀ l r : Roster, mkStudentDatabase l = .ok r → r = l ∧ rosterInvariants r) ∧
    (∀ l : Roster, ¬ rosterInvariants l → isOk (mkStudentDatabase l) = false) ∧
    (∀ a b r : Roster, StudentDatabase.union a b = .ok r → rosterInvariants r) ∧
    (∀ a b r : Roster, StudentDatabase.difference a b = .ok r → rosterInvariants r) ∧
    (∀ (db : Roster) (args : FilterArgs) (r : Roster),
      StudentDatabase.filter db args = .ok r → rosterInvariants r) := by
  refine ⟨?_, ?_, ?_, ?_, ?_⟩
  · intro l r h
    obtain ⟨rfl, hi⟩ := mkStudentDatabase_ok h
    exact ⟨rfl, hi⟩
  · intro l h
    exact mkStudentDatabase_error_of_not_invariants h
  · intro a b r h
    obtain ⟨rfl, hi⟩ := mkStudentDatabase_ok h
    exact hi
  · intro a b r h
    obtain ⟨rfl, hi⟩ := mkStudentDatabase_ok h
    exact hi
  · intro db args r h
    obtain ⟨rfl, hi⟩ := mkStudentDatabase_ok h
    exact hi

/-- Witness for `roster_ops_validate`: the empty roster is accepted (and
satisfies the invariants); a roster with a duplicated record is rejected. -/
theorem roster_ops_validate_witness :
    rosterInvariants ([] : Roster) ∧
    isOk (mkStudentDatabase [defaultStudent, defaultStudent]) = false :=
  ⟨(roster_ops_validate.1 [] [] (by decide)).2,
   roster_ops_validate.2.1 [defaultStudent, defaultStudent] (by decide)⟩

/-! ### The difference and union operations -/

/-- C6: `difference(a, b)` consists of exactly the copies of those records of
`a` whose matriculation number does not appear in `b`; consequently it has no
record whose matriculation number exists in `b`, and together with the records
of `a` whose matriculation number does appear in `b` it reconstructs `a`. -/
theorem difference_spec (a b : Roster) (ha : rosterInvariants a) :
    StudentDatabase.difference a b = .ok (a.filter (fun s => !dbContains b s)) ∧
    (∀ s ∈ a.filter (fun s => !dbContains b s), dbContains b s = false) ∧
    (a.filter (fun s => !dbContains b s) ++
      a.filter (fun s => dbContains b s)).Perm a := by
  have hsub : (a.filter (fun s => !dbContains b s)).Sublist a := List.filter_sublist a
  have hinv : rosterInvariants (a.filter (fun s => !dbContains b s)) := by
    obtain ⟨h1, h2, h3⟩ := ha
    exact ⟨h1.sublist (hsub.map _), h2.sublist (hsub.map _),
      fun s hs => h3 s (hsub.subset hs)⟩
  refine ⟨?_, ?_, ?_⟩
  · unfold StudentDatabase.difference
    rw [Student.map_copy]
    exact mkStudentDatabase_ok_of_invariants hinv
  · intro s hs
    simpa using (List.mem_filter.mp hs).2
  · simpa using List.filter_append_perm (fun s => !dbContains b s) a

/-- Witness for `difference_spec` on a concrete pair of rosters. -/
theorem difference_spec_witness :
    StudentDatabase.difference [defaultStudent] [] =
      .ok ([defaultStudent].filter (fun s => !dbContains [] s)) :=
  (difference_spec [defaultStudent] [] (by decide)).1

theorem unionStep_preserves {aNums : List Int} {acc : Roster} {t : Student}
    (ht : t ∈ acc) (s : Student) (hne : s.matrnr ≠ t.matrnr) :
    t ∈ unionStep aNums acc s := by
  unfold unionStep
  by_cases h : s.matrnr ∈ aNums
  · rw [if_pos h]
    have heq : (fun u => if u.matrnr = s.matrnr then
        { u with group := u.group ∪ s.group } else u) t = t := by
      simp only
      rw [if_neg (fun he => hne he.symm)]
    exact heq ▸ List.mem_map_of_mem _ ht
  · rw [if_neg h]
    exact List.mem_append_left _ ht

theorem union_fold_untouched {aNums : List Int} (bs : List Student)
    (t : Student) (hb : ∀ s ∈ bs, s.matrnr ≠ t.matrnr) :
    ∀ acc : Roster, t ∈ acc → t ∈ bs.foldl (unionStep aNums) acc := by
  induction bs with
  | nil => exact fun acc ht => ht
  | cons s rest ih =>
      intro acc ht
      rw [List.foldl_cons]
      exact ih (fun s' hs' => hb s' (List.mem_cons_of_mem _ hs')) _
        (unionStep_preserves ht s (hb s (List.mem_cons_self s rest)))

theorem union_fold_merged {aNums : List Int} (bs : List Student) (sa sb : Student)
    (hm : sb.matrnr = sa.matrnr) (hin : sa.matrnr ∈ aNums) :
    ∀ acc : Roster, sa ∈ acc → sb ∈ bs → (bs.map Student.matrnr).Nodup →
      { sa with group := sa.group ∪ sb.group } ∈ bs.foldl (unionStep aNums) acc := by
  induction bs with
  | nil => intro acc _ hsb _; cases hsb
  | cons s rest ih =>
      intro acc hsa hsb hnd
      rw [List.map_cons, List.nodup_cons] at hnd
      rw [List.foldl_cons]
      rcases List.mem_cons.mp hsb with he | hsb'
      · subst he
        have hstep : { sa with group := sa.group ∪ sb.group } ∈ unionStep aNums acc sb := by
          unfold unionStep
          rw [if_pos (hm ▸ hin)]
          have heq : (fun u => if u.matrnr = sb.matrnr then
              { u with group := u.group ∪ sb.group } else u) sa =
              { sa with group := sa.group ∪ sb.group } := by
            simp only
            rw [if_pos hm.symm]
          exact heq ▸ List.mem_map_of_mem _ hsa
        apply union_fold_untouched rest _ ?_ _ hstep
        intro s' hs' heq
        have : s'.matrnr = sb.matrnr := by
          simpa [hm] using heq
        exact hnd.1 (this ▸ List.mem_map_of_mem Student.matrnr hs')
      · have hne : s.matrnr ≠ sa.matrnr := by
          intro he
          have : s.matrnr ∈ rest.map Student.matrnr := by
            rw [he, ← hm]
            exact List.mem_map_of_mem Student.matrnr hsb'
          exact hnd.1 this
        have hstep : sa ∈ unionStep aNums acc s := unionStep_preserves hsa s hne
        exact ih _ hstep hsb' hnd.2

theorem union_fold_keeps {aNums : List Int} (bs : List Student) (t : Student)
    (hnt : t.matrnr ∉ aNums) :
    ∀ acc : Roster, t ∈ acc → t ∈ bs.foldl (unionStep aNums) acc := by
  induction bs with
  | nil => exact fun acc ht => ht
  | cons s rest ih =>
      intro acc ht
      rw [List.foldl_cons]
      apply ih
      by_cases h : s.matrnr ∈ aNums
      · exact unionStep_preserves ht s (fun he => hnt (he ▸ h))
      · unfold unionStep
        rw [if_neg h]
        exact List.mem_append_left _ ht

theorem union_fold_appended {aNums : List Int} (bs : List Student) (sb : Student)
    (hnb : sb.matrnr ∉ aNums) :
    ∀ acc : Roster, sb ∈ bs → sb ∈ bs.foldl (unionStep aNums) acc := by
  induction bs with
  | nil => intro acc h; cases h
  | cons s rest ih =>
      intro acc hsb
      rw [List.foldl_cons]
      rcases List.mem_cons.mp hsb with he | hsb'
      · subst he
        have hmem : sb ∈ unionStep aNums acc sb := by
          unfold unionStep
          rw [if_neg hnb, Student.copy_eq]
          exact List.mem_append_right _ (List.mem_singleton_self _)
        exact union_fold_keeps rest sb hnb _ hmem
      · exact ih _ hsb'

theorem matrnr_comp_update (s : Student) :
    Student.matrnr ∘ (fun u => if u.matrnr = s.matrnr then
      { u with group := u.group ∪ s.group } else u) = Student.matrnr := by
  funext u
  by_cases h : u.matrnr = s.matrnr <;> simp [h]

theorem union_fold_closure {aNums : List Int} (bs : List Student) :
    ∀ acc : Roster, ∀ t ∈ bs.foldl (unionStep aNums) acc,
      t.matrnr ∈ acc.map Student.matrnr ∨ t.matrnr ∈ bs.map Student.matrnr := by
  induction bs with
  | nil => exact fun acc t ht => Or.inl (List.mem_map_of_mem _ ht)
  | cons s rest ih =>
      intro acc t ht
      rw [List.foldl_cons] at ht
      rcases ih _ t ht with h | h
      · have hsplit : t.matrnr ∈ acc.map Student.matrnr ∨ t.matrnr = s.matrnr := by
          unfold unionStep at h
          by_cases hc : s.matrnr ∈ aNums
          · rw [if_pos hc, List.map_map, matrnr_comp_update] at h
            exact Or.inl h
          · rw [if_neg hc, Student.copy_eq, List.map_append] at h
            rcases List.mem_append.mp h with h1 | h1
            · exact Or.inl h1
            · simp at h1
              exact Or.inr h1
        rcases hsplit with h1 | h1
        · exact Or.inl h1
        · exact Or.inr (by simp [h1])
      · exact Or.inr (by
          rw [List.map_cons]
          exact List.mem_cons_of_mem _ h)

/-- C5: for valid rosters `a` and `b`, every successful `union(a, b)` contains,
for each matriculation number present in both, `a`'s record with its group set
replaced by the union of both records' group sets (all other fields from
`a`'s record); records whose number is present in only one side are contained
as-is; every result record's number stems from `a` or `b`; and the result was
re-validated against the roster invariants. -/
theorem union_spec (a b : Roster) (ha : rosterInvariants a) (hb : rosterInvariants b)
    (u : Roster) (hu : StudentDatabase.union a b = .ok u) :
    (∀ sa ∈ a, ∀ sb ∈ b, sb.matrnr = sa.matrnr →
      { sa with group := sa.group ∪ sb.group } ∈ u) ∧
    (∀ sa ∈ a, sa.matrnr ∉ b.map Student.matrnr → sa ∈ u) ∧
    (∀ sb ∈ b, sb.matrnr ∉ a.map Student.matrnr → sb ∈ u) ∧
    (∀ t ∈ u, t.matrnr ∈ a.map Student.matrnr ∨ t.matrnr ∈ b.map Student.matrnr) ∧
    rosterInvariants u := by
  unfold StudentDatabase.union at hu
  rw [Student.map_copy] at hu
  obtain ⟨rfl, hinv⟩ := mkStudentDatabase_ok hu
  refine ⟨?_, ?_, ?_, ?_, hinv⟩
  · intro sa hsa sb hsb hm
    exact union_fold_merged b sa sb hm (List.mem_map_of_mem _ hsa) a hsa hsb hb.1
  · intro sa hsa hn
    apply union_fold_untouched b sa ?_ a hsa
    intro s hs he
    exact hn (he ▸ List.mem_map_of_mem Student.matrnr hs)
  · intro sb hsb hn
    exact union_fold_appended b sb hn a hsb
  · intro t ht
    exact union_fold_closure b a t ht

/-- Witness for `union_spec` on a concrete pair of rosters. -/
theorem union_spec_witness : rosterInvariants [defaultStudent] :=
  (union_spec [defaultStudent] [] (by decide) (by decide) [defaultStudent]
    (by decide)).2.2.2.2

/-! ### Filtering with falsy criteria -/

/-- The first two lines of `create_group_spreadsheets` and of
`create_title_group_spreadsheet` (control.py:1367-1368, 1286-1287): the
roster a spreadsheet generation run operates on. -/
def spreadsheet_base_roster (db : Roster) (group : Int) : Except PyError Roster := do
  let db2 ← StudentDatabase.filter db { group := some group }
  sorted_by_wikiname db2

theorem filtered_nil (db : Roster) (h : rosterInvariants db) :
    filtered db [] = .ok db := by
  unfold filtered
  have hf : db.filter (fun s => ([] : List (Student → Bool)).all (fun sel => sel s)) = db := by
    simp
  rw [hf]
  exact mkStudentDatabase_ok_of_invariants h

/-- Every filter criterion present but falsy: group 0, matriculation number
0, grade 0, and empty strings for the textual criteria. -/
def allFalsyArgs : FilterArgs :=
  { matrnr := some 0, group := some 0, firstname := some [], lastname := some [],
    wikiname := some [], degree := some [], email := some [], grade := some 0 }

/-- C10: a filter criterion whose value is falsy (group 0, matriculation
number 0, grade 0, or an empty string) installs no predicate at all:
`filter(group=0)` returns a copy of the entire roster, as does a filter call
with no arguments or with every criterion present but falsy; consequently
spreadsheet generation for group 0 operates on all students (its base roster
is the whole roster, merely sorted). -/
theorem filter_falsy_spec (db : Roster) (hdb : rosterInvariants db) :
    StudentDatabase.filter db { group := some 0 } = .ok db ∧
    StudentDatabase.filter db {} = .ok db ∧
    StudentDatabase.filter db allFalsyArgs = .ok db ∧
    spreadsheet_base_roster db 0 = sorted_by_wikiname db := by
  have h1 : StudentDatabase.filter db { group := some 0 } = filtered db [] := rfl
  have h2 : StudentDatabase.filter db {} = filtered db [] := rfl
  have h3 : StudentDatabase.filter db allFalsyArgs = filtered db [] := rfl
  refine ⟨h1 ▸ filtered_nil db hdb, h2 ▸ filtered_nil db hdb,
    h3 ▸ filtered_nil db hdb, ?_⟩
  unfold spreadsheet_base_roster
  rw [h1, filtered_nil db hdb]
  simp [Bind.bind, Except.bind]

/-- Witness for `filter_falsy_spec` on a concrete roster. -/
theorem filter_falsy_spec_witness :
    StudentDatabase.filter [defaultStudent] { group := some 0 } = .ok [defaultStudent] :=
  (filter_falsy_spec [defaultStudent] (by decide)).1

/-! ### XML exchange form -/

/-- An XML child element of a student entry: a tag and optional text
content (`lxml` keeps `text = None` when no text was assigned). -/
structure XmlElem where
  tag : Str
  text : Option Str
deriving DecidableEq

/-- The `elem` helper of `Student.to_xml` (control.py:621-625): text is
assigned only when truthy, so an empty string leaves `text = None`. -/
def elem (tag : Str) (text : Str) : XmlElem :=
  ⟨tag, if text ≠ [] then some text else none⟩

/-- The elements of an integer multiset in ascending order; well defined on
the quotient because sorting is permutation invariant. -/
def ascListOfMultiset (m : Multiset Int) : List Int :=
  Quot.liftOn m (fun l => l.insertionSort (· ≤ ·)) (fun l₁ l₂ h => by
    refine List.eq_of_perm_of_sorted ?_ (List.sorted_insertionSort _ l₁)
      (List.sorted_insertionSort _ l₂)
    exact ((List.perm_insertionSort _ l₁).trans h).trans
      (List.perm_insertionSort _ l₂).symm)

/-- The elements of the group set in ascending order. Python iterates the set
in an unspecified order; we fix the ascending one (re-parsing unions the
elements back into a set, so any order yields the same roster). -/
def groupAscList (g : Finset Int) : List Int := ascListOfMultiset g.val

/-- `Student.to_xml` (control.py:615-641): the child elements of one student
entry, in source order; `degree-programme` only when the degree is truthy and
`grade` only when the grade is truthy (non-zero). -/
def Student.to_xml (s : Student) : List XmlElem :=
  [elem "matriculation-number".data (intRepr s.matrnr)] ++
  (groupAscList s.group).map (fun g => elem "group".data (intRepr g)) ++
  [elem "lastname".data s.lastname,
   elem "firstname".data s.firstname,
   elem "wikiname".data s.wikiname] ++
  (if s.degree ≠ [] then [elem "degree-programme".data s.degree] else []) ++
  [elem "registration-date".data s.regdate.isoformat,
   elem "email".data s.email] ++
  (if s.grade ≠ 0 then [elem "grade".data (intRepr s.grade)] else [])

/-- `parse_group_id` (control.py:455-467): 'Standardgruppe' (case
insensitively) maps to 0; otherwise all non-digit characters are removed and
the remainder parsed as an integer (raising on an empty remainder). -/
def parse_group_id (s : Str) : Except PyError Int :=
  if strLower s = "standardgruppe".data then .ok 0
  else int_parse (s.filter Char.isDigit)

/-- `str(x)` for optional XML text: Python renders `None` as `'None'`. -/
def strOfText (t : Option Str) : Str := t.getD "None".data

/-- `Student.set_from_xml` with `add=True` (control.py:585-595) fused with
`Student.normalize` (control.py:568-577), case by tag. An unknown tag raises
`KeyError` from the `_map` lookup (the surrounding `except IndexError` does
not catch it); `int()` of `None` raises `TypeError`; `parse_group_id` of
`None` raises `AttributeError` (`None.lower()`). `normalize` compares the
pre-mapping name 'registration-date' but receives the post-mapping attribute
'regdate', so a date value reaches `parse_date` only through the special case
on control.py:591-592 — as the string `normalize` returned. -/
def Student.set_from_xml (s : Student) (tag : Str) (text : Option Str) :
    Except PyError Student :=
  if tag = "matriculation-number".data then
    match text with
    | none => .error .typeError
    | some v => do
        let n ← int_parse v
        .ok { s with matrnr := n }
  else if tag = "group".data then
    match text with
    | none => .error .attributeError
    | some v => do
        let g ← parse_group_id v
        .ok { s with group := {g} ∪ s.group }
  else if tag = "lastname".data then .ok { s with lastname := strOfText text }
  else if tag = "firstname".data then .ok { s with firstname := strOfText text }
  else if tag = "degree-programme".data then .ok { s with degree := strOfText text }
  else if tag = "registration-date".data then do
    let d ← parse_date (strOfText text)
    .ok { s with regdate := d }
  else if tag = "email".data then .ok { s with email := strOfText text }
  else if tag = "grade".data then
    match text with
    | none => .error .typeError
    | some v => do
        let n ← int_parse v
        .ok { s with grade := n }
  else if tag = "wikiname".data then .ok { s with wikinameStored := strOfText text }
  else .error .keyError

/-- The loop body of `from_xml`, applied to one child element. -/
def applyElem (st : Student) (e : XmlElem) : Except PyError Student :=
  st.set_from_xml e.tag e.text

/-- The per-entry loop body of `from_xml` (control.py:881-883): build one
student from a fresh `Student()` by applying every child element in document
order. -/
def buildStudent (elems : List XmlElem) : Except PyError Student :=
  elems.foldlM applyElem defaultStudent

/-- The loop body of `from_xml`: build one student from its entry and `add`
it to the database. -/
def fromXmlStep (db : Roster) (elems : List XmlElem) : Except PyError Roster := do
  let st ← buildStudent elems
  StudentDatabase.add db st

/-- `StudentDatabase.from_xml` (control.py:870-886): start from an empty
database and `add` each student built from its entry, in document order. -/
def StudentDatabase.from_xml (xml : List (List XmlElem)) : Except PyError Roster :=
  xml.foldlM fromXmlStep ([] : Roster)

/-- `StudentDatabase.to_xml` (control.py:888-892): serialize the entries
sorted by matriculation number ascending (`sorted_by_matriculation_number`
itself rebuilds the database, re-validating it). -/
def StudentDatabase.to_xml (db : Roster) : Except PyError (List (List XmlElem)) := do
  let sorted ← sorted_by_matrnr db
  .ok (sorted.map Student.to_xml)

/-- C9: `add` on a student whose matriculation number already occurs in the
database raises `AttributeError` (the merge branch reads `self.group` on the
database object, control.py:827), so the group-merging branch never
completes; consequently `from_xml` on a source whose second entry repeats a
matriculation number fails with `AttributeError` rather than with the
duplicate-key `ValueError` of the consistency check. -/
theorem add_duplicate_attribute_error :
    (∀ (db : Roster) (s : Student), dbContains db s = true →
      StudentDatabase.add db s = .error .attributeError) ∧
    (∀ (e1 e2 : List XmlElem) (s1 s2 : Student),
      buildStudent e1 = .ok s1 → buildStudent e2 = .ok s2 →
      s1.matrnr = s2.matrnr → consistency_check [s1] = .ok () →
      StudentDatabase.from_xml [e1, e2] = .error .attributeError) := by
  constructor
  · intro db s h
    unfold StudentDatabase.add
    rw [if_pos h]
  · intro e1 e2 s1 s2 h1 h2 hm hc
    unfold StudentDatabase.from_xml
    have hadd1 : StudentDatabase.add [] s1 = .ok [s1] := by
      unfold StudentDatabase.add
      rw [if_neg (by simp [dbContains]), Student.copy_eq]
      simp only [List.nil_append, hc, Bind.bind, Except.bind]
    have hdup : dbContains [s1] s2 = true := by
      simp [dbContains, hm]
    have hadd2 : StudentDatabase.add [s1] s2 = .error .attributeError := by
      unfold StudentDatabase.add
      rw [if_pos hdup]
    simp [List.foldlM, fromXmlStep, h1, h2, hadd1, hadd2, Bind.bind, Except.bind]

/-- Witness for `add_duplicate_attribute_error`: an XML source with two
identical minimal entries sharing matriculation number 1. -/
theorem add_duplicate_attribute_error_witness :
    StudentDatabase.from_xml
      [[⟨"matriculation-number".data, some "1".data⟩],
       [⟨"matriculation-number".data, some "1".data⟩]] =
      .error .attributeError :=
  add_duplicate_attribute_error.2
    [⟨"matriculation-number".data, some "1".data⟩]
    [⟨"matriculation-number".data, some "1".data⟩]
    { defaultStudent with matrnr := 1 } { defaultStudent with matrnr := 1 }
    (by decide) (by decide) rfl (by decide)

/-! ### The identity (wikiname) derivation -/

theorem char_toNat_ofNat {n : Nat} (h : n.isValidChar) : (Char.ofNat n).toNat = n := by
  unfold Char.ofNat Char.toNat
  rw [dif_pos h]
  unfold Char.ofNatAux
  simp [UInt32.toNat, BitVec.toNat_ofNatLt]

theorem char_eq_of_toNat_eq {c d : Char} (h : c.toNat = d.toNat) : c = d := by
  have hb : c.val.toBitVec = d.val.toBitVec := BitVec.eq_of_toNat_eq h
  have hv : c.val = d.val := by
    cases hcv : c.val with
    | mk b1 =>
        cases hdv : d.val with
        | mk b2 =>
            rw [hcv, hdv] at hb
            simp at hb
            rw [hb]
  exact Char.eq_of_val_eq hv

theorem toUpper_toNat (c : Char) :
    c.toUpper.toNat = if 97 ≤ c.toNat ∧ c.toNat ≤ 122 then c.toNat - 32 else c.toNat := by
  unfold Char.toUpper
  by_cases h : 97 ≤ c.toNat ∧ c.toNat ≤ 122
  · rw [if_pos ⟨h.1, h.2⟩, if_pos h]
    exact char_toNat_ofNat (Or.inl (by omega))
  · rw [if_neg (fun hx => h ⟨hx.1, hx.2⟩), if_neg h]

theorem toLower_toNat (c : Char) :
    c.toLower.toNat = if 65 ≤ c.toNat ∧ c.toNat ≤ 90 then c.toNat + 32 else c.toNat := by
  unfold Char.toLower
  by_cases h : 65 ≤ c.toNat ∧ c.toNat ≤ 90
  · rw [if_pos ⟨h.1, h.2⟩, if_pos h]
    exact char_toNat_ofNat (Or.inl (by omega))
  · rw [if_neg (fun hx => h ⟨hx.1, hx.2⟩), if_neg h]

theorem toUpper_keeps {c : Char} (ha : isAsciiChar c = true) :
    isAsciiChar c.toUpper = true := by
  unfold isAsciiChar at ha ⊢
  simp only [decide_eq_true_eq] at ha ⊢
  have ht := toUpper_toNat c
  by_cases h : 97 ≤ c.toNat ∧ c.toNat ≤ 122
  · rw [if_pos h] at ht
    omega
  · rw [if_neg h] at ht
    omega

theorem toLower_keeps {c : Char} (ha : isAsciiChar c = true) :
    isAsciiChar c.toLower = true := by
  unfold isAsciiChar at ha ⊢
  simp only [decide_eq_true_eq] at ha ⊢
  have ht := toLower_toNat c
  by_cases h : 65 ≤ c.toNat ∧ c.toNat ≤ 90
  · rw [if_pos h] at ht
    omega
  · rw [if_neg h] at ht
    omega

theorem asciiDecompose_chars {c d : Char} (h : d ∈ asciiDecompose c) :
    isAsciiChar d = true := by
  unfold asciiDecompose at h
  by_cases h1 : isAsciiChar c = true
  · rw [if_pos h1] at h
    simp at h
    subst h
    exact h1
  · rw [if_neg h1] at h
    cases hf : decomposeTable.find? (fun p => p.1.contains c) with
    | none =>
        rw [hf] at h
        simp at h
    | some pr =>
        rw [hf] at h
        simp at h
        have hmem : pr ∈ decomposeTable := List.mem_of_find?_eq_some hf
        have hall : ∀ p ∈ decomposeTable, ∀ e ∈ p.2,
            isAsciiChar e = true := by decide
        exact hall pr hmem d h

theorem mem_of_mem_splitOnP {p : Char → Bool} :
    ∀ (l t : Str), t ∈ l.splitOnP p → ∀ c ∈ t, c ∈ l := by
  intro l
  induction l with
  | nil =>
      intro t ht c hc
      rw [List.splitOnP_nil] at ht
      simp at ht
      subst ht
      cases hc
  | cons x xs ih =>
      intro t ht c hc
      rw [List.splitOnP_cons] at ht
      by_cases hp : p x = true
      · rw [if_pos hp] at ht
        rcases List.mem_cons.mp ht with rfl | ht'
        · cases hc
        · exact List.mem_cons_of_mem _ (ih t ht' c hc)
      · rw [if_neg hp] at ht
        cases hsp : xs.splitOnP p with
        | nil => exact absurd hsp (List.splitOnP_ne_nil _ _)
        | cons hd rest =>
            rw [hsp] at ht
            rw [List.modifyHead_cons] at ht
            rcases List.mem_cons.mp ht with rfl | ht'
            · rcases List.mem_cons.mp hc with rfl | hc'
              · exact List.mem_cons_self c xs
              · exact List.mem_cons_of_mem _
                  (ih hd (hsp ▸ List.mem_cons_self hd rest) c hc')
            · exact List.mem_cons_of_mem _
                (ih t (hsp ▸ List.mem_cons_of_mem _ ht') c hc)

theorem mem_of_mem_pySplit {s t : Str} {c : Char} (ht : t ∈ pySplit s) (hc : c ∈ t) :
    c ∈ s :=
  mem_of_mem_splitOnP s t (List.mem_filter.mp ht).1 c hc

theorem mem_pyTitleAux {c : Char} :
    ∀ (b : Bool) (s : Str), c ∈ pyTitleAux b s →
      ∃ d ∈ s, c = d.toUpper ∨ c = d.toLower ∨ c = d := by
  intro b s
  induction s generalizing b with
  | nil => intro h; cases h
  | cons x xs ih =>
      intro h
      unfold pyTitleAux at h
      by_cases ha : x.isAlpha = true
      · rw [if_pos ha] at h
        rcases List.mem_cons.mp h with rfl | h'
        · cases b with
          | true => exact ⟨x, List.mem_cons_self x xs, Or.inr (Or.inl (by simp))⟩
          | false => exact ⟨x, List.mem_cons_self x xs, Or.inl (by simp)⟩
        · obtain ⟨d, hd, hc⟩ := ih true h'
          exact ⟨d, List.mem_cons_of_mem _ hd, hc⟩
      · rw [if_neg ha] at h
        rcases List.mem_cons.mp h with rfl | h'
        · exact ⟨c, List.mem_cons_self c xs, Or.inr (Or.inr rfl)⟩
        · obtain ⟨d, hd, hc⟩ := ih false h'
          exact ⟨d, List.mem_cons_of_mem _ hd, hc⟩

/-- C8 (amended): for every student with no stored override whose name
fields lie in the modeled character repertoire, the derived identity is
deterministic — it depends only on the two name fields — and is exactly the
result of concatenating "first last", replacing hyphens and apostrophes with
spaces, decomposing to ASCII (discarding non-ASCII residue), splitting on
whitespace, title-casing each token and concatenating the tokens; moreover
every output character is ASCII. Unlike the original claim, a hyphen can
survive into the output: the hyphen replacement runs before normalisation,
so a compatibility character decomposing to the plain hyphen-minus (such as
U+FE63) re-introduces one, refuted concretely by `wikiname_cex`. -/
theorem wikiname_spec (s : Student) (hov : s.wikinameStored = [])
    (_hmod : ∀ c ∈ s.firstname ++ s.lastname, modeledChar c = true) :
    (∀ t : Student, t.firstname = s.firstname → t.lastname = s.lastname →
      t.wikinameStored = [] → t.wikiname = s.wikiname) ∧
    s.wikiname =
      ((pySplit ((((s.firstname ++ ' ' :: s.lastname).map
          (fun c => if c = '-' then ' ' else c)).map
          (fun c => if c = Char.ofNat 39 then ' ' else c)).map
          asciiDecompose).flatten).map pyTitle).flatten ∧
    (∀ c ∈ s.wikiname, isAsciiChar c = true) := by
  have hpipe : ∀ t : Student, t.wikinameStored = [] →
      t.wikiname =
        ((pySplit ((((t.firstname ++ ' ' :: t.lastname).map
            (fun c => if c = '-' then ' ' else c)).map
            (fun c => if c = Char.ofNat 39 then ' ' else c)).map
            asciiDecompose).flatten).map pyTitle).flatten := by
    intro t htov
    unfold Student.wikiname
    rw [if_neg (by simp [htov])]
  refine ⟨?_, hpipe s hov, ?_⟩
  · intro t hf hl htov
    rw [hpipe t htov, hpipe s hov, hf, hl]
  · intro c hc
    rw [hpipe s hov] at hc
    set base := ((s.firstname ++ ' ' :: s.lastname).map
      (fun c => if c = '-' then ' ' else c)).map
      (fun c => if c = Char.ofNat 39 then ' ' else c) with hbase
    have hinner : ∀ d ∈ (base.map asciiDecompose).flatten,
        isAsciiChar d = true := by
      intro d hd
      rw [List.mem_flatten] at hd
      obtain ⟨piece, hpiece, hdp⟩ := hd
      rw [List.mem_map] at hpiece
      obtain ⟨e, _, rfl⟩ := hpiece
      exact asciiDecompose_chars hdp
    rw [List.mem_flatten] at hc
    obtain ⟨titled, htitled, hct⟩ := hc
    rw [List.mem_map] at htitled
    obtain ⟨tok, htok, rfl⟩ := htitled
    obtain ⟨d, hd, hcd⟩ := mem_pyTitleAux false tok hct
    have hdprops := hinner d (mem_of_mem_pySplit htok hd)
    rcases hcd with rfl | rfl | rfl
    · exact toUpper_keeps hdprops
    · exact toLower_keeps hdprops
    · exact hdprops

/-- Witness for `wikiname_spec`: a student with diacritics and a hyphenated
surname (all characters in the modeled repertoire); the derived identity is
the diacritic-free CamelCase concatenation, and the theorem applies to it. -/
theorem wikiname_spec_witness :
    Student.wikiname { defaultStudent with
      firstname := "Jürgen".data, lastname := "Groß-Müller".data } =
      "JurgenGroMuller".data ∧
    (∀ c ∈ Student.wikiname { defaultStudent with
      firstname := "Jürgen".data, lastname := "Groß-Müller".data },
      isAsciiChar c = true) :=
  ⟨by decide,
   (wikiname_spec { defaultStudent with
      firstname := "Jürgen".data, lastname := "Groß-Müller".data } rfl
      (by decide)).2.2⟩

/-- A student whose first name contains U+FE63 (SMALL HYPHEN-MINUS), a
compatibility character whose NFKD decomposition is the plain hyphen-minus. -/
def hyphenStudent : Student := { defaultStudent with firstname := ['x', Char.ofNat 0xFE63, 'y'], lastname := ['c'] }

/-- C8 counterexample: the code replaces only the literal hyphen-minus before
normalising, so the small hyphen-minus U+FE63 escapes the replacement,
decomposes to a plain ASCII hyphen afterwards, and that hyphen survives into
the derived identity — refuting the original claim that hyphens never appear
in the output. -/
theorem wikiname_cex :
    Student.wikiname hyphenStudent = "X-YC".data ∧
    '-' ∈ Student.wikiname hyphenStudent :=
  ⟨by decide, by decide⟩

/-! ### The grading-points parser

`parse_grading_points` (control.py:1197-1252) on the already-read table: a row
whose first cell is bold and whose second cell is empty starts an assignment
(third cell: declared total); a row with blank first cell is a
criterion/points line; any other row starts an exercise (third cell: declared
total). Bookkeeping goes into a single dict `check`: `check[assignment]` is a
dict holding the declared total under the key `expect`, a running sum under
the key `points` (added by the final pass), and one nested
expect/points dict per exercise under the exercise's own name — so an
exercise literally named `expect` or `points` collides with those slots,
exactly as in the Python dict. The final pass checks that per exercise the
absolute criterion points sum to the declared exercise total, and per
assignment the exercise sums sum to the declared assignment total. -/

/-- One row of the simplified pipe-delimited grading table (the source asserts
that every row has exactly three cells). -/
structure GradingRow where
  c0 : Str
  c1 : Str
  c2 : Str
deriving DecidableEq

/-- Python `str.strip()`. -/
def pyStrip (s : Str) : Str :=
  ((s.dropWhile isSpaceChar).reverse.dropWhile isSpaceChar).reverse

/-- The `bold` lambda (control.py:1205): after stripping, non-empty with `*`
as both first and last character. -/
def boldCell (v : Str) : Bool :=
  match pyStrip v with
  | [] => false
  | c :: rest => c == '*' && (c :: rest).getLast (List.cons_ne_nil c rest) == '*'

/-- Ordered-dictionary lookup on an association list (insertion order). -/
def alookup {α : Type} (k : Str) : List (Str × α) → Option α
  | [] => none
  | (h, v) :: rest => if h = k then some v else alookup k rest

/-- Ordered-dictionary assignment: overwrite in place, else append (Python
dicts preserve the original position of updated keys). -/
def aupsert {α : Type} (k : Str) (v : α) : List (Str × α) → List (Str × α)
  | [] => [(k, v)]
  | (h, w) :: rest => if h = k then (k, v) :: rest else (h, w) :: aupsert k v rest

/-- Ordered-dictionary update of an existing key; a missing key raises
`KeyError` (just as a Python subscript on a dict would). -/
def aupdate {α : Type} (k : Str) (f : α → Except PyError α) :
    List (Str × α) → Except PyError (List (Str × α))
  | [] => .error .keyError
  | (h, v) :: rest =>
      if h = k then do
        let v' ← f v
        .ok ((h, v') :: rest)
      else do
        let rest' ← aupdate k f rest
        .ok ((h, v) :: rest')

/-- A Python dict subscript: the value, or `KeyError`. -/
def dictGet {α : Type} (o : Option α) : Except PyError α :=
  match o with
  | some v => .ok v
  | none => .error .keyError

/-- One slot of the bookkeeping dict `check[assignment]`: the `expect` and
`points` keys hold plain ints, and an exercise key holds the exercise's own
expect/points dict of ints. A name collision — an exercise literally called
`expect` or `points` — overwrites the slot with the other kind of value,
exactly as a Python dict assignment would. -/
inductive EVal where
  | int (n : Int)
  | dict (m : List (Str × Int))
deriving DecidableEq, Repr

/-- Python subscript read on a bookkeeping slot: a dict yields the entry (or
KeyError); subscripting an int raises TypeError. -/
def EVal.asDict : EVal → Except PyError (List (Str × Int))
  | .int _ => .error .typeError
  | .dict m => .ok m

/-- Python `x += r` on a bookkeeping slot: int addition, or TypeError when
the slot holds a dict. -/
def EVal.addInt : EVal → Int → Except PyError EVal
  | .int p, r => .ok (.int (p + r))
  | .dict _, _ => .error .typeError

/-- Python equality of two string-to-int dicts: same keys with the same
values (insertion order irrelevant). -/
def dictIntEqv (a b : List (Str × Int)) : Bool :=
  a.all (fun p => alookup p.1 b == some p.2) && b.all (fun p => alookup p.1 a == some p.2)

/-- Python `!=` on bookkeeping slots: ints compare by value, dicts as dicts,
and an int never equals a dict — so after an exercise named `expect`
replaced a declared total by a dict, the final comparison is always true and
the parser raises ValueError. -/
def EVal.pyNe : EVal → EVal → Bool
  | .int a, .int b => a != b
  | .dict a, .dict b => !(dictIntEqv a b)
  | _, _ => true

/-- The mutable state of the parse loop: the nested `grading` dict and the
single bookkeeping dict `check` of the source. -/
structure GradingState where
  grading : List (Str × List (Str × List (Str × Int)))
  check : List (Str × List (Str × EVal))

instance decEqCritMap : DecidableEq (List (Str × Int)) := inferInstance

instance decEqExMap : DecidableEq (List (Str × List (Str × Int))) := inferInstance

instance decEqGradMap : DecidableEq (List (Str × List (Str × List (Str × Int)))) :=
  inferInstance

instance decEqSlotMap : DecidableEq (List (Str × EVal)) := inferInstance

instance decEqCheckMap : DecidableEq (List (Str × List (Str × EVal))) := inferInstance

instance : DecidableEq GradingState := fun a b =>
  decidable_of_iff (a.grading = b.grading ∧ a.check = b.check)
    (by cases a; cases b; simp)

def initGradingState : GradingState := ⟨[], []⟩

/-- One iteration of the parse loop (control.py:1214-1230). An assignment row
resets `check[assignment]` to a fresh dict holding the declared total under
`expect`; an exercise row stores a fresh expect dict under
`check[assignment][exercise]` — also when the exercise is literally named
`expect` or `points`, overwriting that slot in place. The `assert` statements
on the `assignment` and `exercise` variables test Python truthiness, so an
empty name fails them exactly like an unset one. `int()` tolerates
surrounding whitespace, modelled by stripping before `int_parse`. -/
def gradingStep (acc : GradingState × Option Str × Option Str) (row : GradingRow) :
    Except PyError (GradingState × Option Str × Option Str) :=
  let (st, assignment, exercise) := acc
  if boldCell row.c0 && row.c1.isEmpty then do
    let name := ((pyStrip row.c0).drop 1).dropLast
    let expect ← int_parse (pyStrip row.c2)
    .ok ({ grading := aupsert name [] st.grading,
           check := aupsert name [("expect".data, EVal.int expect)] st.check }, some name, none)
  else if (pyStrip row.c0).isEmpty then
    match assignment with
    | none => .error (.assertionError "Assignment line required before exercise".data)
    | some a =>
        if a.isEmpty then
          .error (.assertionError "Assignment line required before exercise".data)
        else
          match exercise with
          | none => .error (.assertionError "Exercise line required before points line".data)
          | some ex =>
              if ex.isEmpty then
                .error (.assertionError "Exercise line required before points line".data)
              else do
                let label := pyStrip row.c1
                let pts ← int_parse (pyStrip row.c2)
                let g' ← aupdate a
                  (fun exs => aupdate ex (fun crits => .ok (aupsert label pts crits)) exs)
                  st.grading
                .ok ({ st with grading := g' }, assignment, exercise)
  else
    match assignment with
    | none => .error (.assertionError "Assignment line required before exercise".data)
    | some a =>
        if a.isEmpty then
          .error (.assertionError "Assignment line required before exercise".data)
        else do
          let ex := pyStrip row.c0
          let g' ← aupdate a (fun exs => .ok (aupsert ex [] exs)) st.grading
          let expect ← int_parse (pyStrip row.c2)
          let c' ← aupdate a
            (fun m => .ok (aupsert ex (EVal.dict [("expect".data, expect)]) m)) st.check
          .ok ({ grading := g', check := c' }, assignment, some ex)

/-- Sum of the absolute criterion point values of one exercise. -/
def sumAbs (crits : List (Str × Int)) : Int := (crits.map (fun p => |p.2|)).sum

/-- One step of the criterion loop (control.py:1241-1242):
`check[assignment][exercise]['points'] += abs(pts)`, reading through the live
dict (a missing key raises KeyError, subscripting an int TypeError). -/
def critStep (a e : Str) (check : List (Str × List (Str × EVal))) (q : Str × Int) :
    Except PyError (List (Str × List (Str × EVal))) := do
  let m ← dictGet (alookup a check)
  let ev ← dictGet (alookup e m)
  let inner ← EVal.asDict ev
  let p ← dictGet (alookup "points".data inner)
  .ok (aupsert a (aupsert e (EVal.dict (aupsert "points".data (p + |q.2|) inner)) m) check)

/-- The per-exercise body of the consistency check (control.py:1237-1245):
zero the exercise's points slot, accumulate the absolute criterion points,
compare against the declared exercise total, then add the exercise total
into the assignment's points slot. -/
def exerciseCheck (a : Str) (check : List (Str × List (Str × EVal)))
    (pe : Str × List (Str × Int)) : Except PyError (List (Str × List (Str × EVal))) := do
  let m ← dictGet (alookup a check)
  let ev ← dictGet (alookup pe.1 m)
  let inner ← EVal.asDict ev
  let check1 := aupsert a
    (aupsert pe.1 (EVal.dict (aupsert "points".data (0 : Int) inner)) m) check
  let check2 ← pe.2.foldlM (critStep a pe.1) check1
  let m2 ← dictGet (alookup a check2)
  let ev2 ← dictGet (alookup pe.1 m2)
  let inner2 ← EVal.asDict ev2
  let p ← dictGet (alookup "points".data inner2)
  let ex ← dictGet (alookup "expect".data inner2)
  if p ≠ ex then Except.error (PyError.valueError "Sum of points inconsistent".data)
  else do
    let m3 ← dictGet (alookup a check2)
    let acc ← dictGet (alookup "points".data m3)
    let ev3 ← dictGet (alookup pe.1 m3)
    let inner3 ← EVal.asDict ev3
    let r ← dictGet (alookup "points".data inner3)
    let acc2 ← EVal.addInt acc r
    Except.ok (aupsert a (aupsert "points".data acc2 m3) check2)

/-- The per-assignment body of the outer consistency loop
(control.py:1234-1250): zero the assignment's points slot (overwriting
whatever an exercise named `points` had left there), run the exercise loop,
and compare the accumulated points against the `expect` slot with Python
`!=`. -/
def assignmentCheck (check : List (Str × List (Str × EVal)))
    (pa : Str × List (Str × List (Str × Int))) :
    Except PyError (List (Str × List (Str × EVal))) := do
  let m ← dictGet (alookup pa.1 check)
  let check1 := aupsert pa.1 (aupsert "points".data (EVal.int 0) m) check
  let check2 ← pa.2.foldlM (exerciseCheck pa.1) check1
  let m2 ← dictGet (alookup pa.1 check2)
  let p ← dictGet (alookup "points".data m2)
  let ex ← dictGet (alookup "expect".data m2)
  if EVal.pyNe p ex then Except.error (PyError.valueError "Sum of points inconsistent".data)
  else Except.ok check2

/-- `parse_grading_points` (control.py:1197-1252) on the table contents. -/
def parse_grading_points (table : List GradingRow) :
    Except PyError (List (Str × List (Str × List (Str × Int)))) :=
  if table.isEmpty then
    .error (.valueError "Grading scheme table must not be empty".data)
  else do
    let acc ← table.foldlM gradingStep (initGradingState, none, none)
    let _ ← acc.1.grading.foldlM assignmentCheck acc.1.check
    .ok acc.1.grading

/-- The per-exercise success condition the claim describes, read off one
assignment slot `m` of the bookkeeping dict as the parse loop left it. -/
def goodExercises (exs : List (Str × List (Str × Int))) (m : List (Str × EVal)) : Prop :=
  ∀ q ∈ exs, ∃ inner, alookup q.1 m = some (EVal.dict inner) ∧
    alookup "expect".data inner = some (sumAbs q.2)

/-- The per-assignment success condition: every exercise sum matches its
declared total and the assignment's declared total equals the sum of the
exercise sums. -/
def goodAssignment (exs : List (Str × List (Str × Int))) (m : List (Str × EVal)) : Prop :=
  goodExercises exs m ∧
    alookup "expect".data m = some (EVal.int ((exs.map (fun q => sumAbs q.2)).sum))

/-- The success condition for a whole scheme. -/
def schemeConsistent (g : List (Str × List (Str × List (Str × Int))))
    (check : List (Str × List (Str × EVal))) : Prop :=
  ∀ p ∈ g, ∃ m, alookup p.1 check = some m ∧ goodAssignment p.2 m

/-- Decidable (executable) form of `schemeConsistent` for the state the
building loop produced. -/
def sumsConsistent (st : GradingState) : Bool :=
  st.grading.all (fun p =>
    match alookup p.1 st.check with
    | none => false
    | some m =>
        p.2.all (fun q =>
          match alookup q.1 m with
          | some (EVal.dict inner) =>
              decide (alookup "expect".data inner = some (sumAbs q.2))
          | _ => false) &&
        decide (alookup "expect".data m =
          some (EVal.int ((p.2.map (fun q => sumAbs q.2)).sum))))

theorem alookup_aupsert {α : Type} (k k2 : Str) (v : α) (l : List (Str × α)) :
    alookup k2 (aupsert k v l) = if k = k2 then some v else alookup k2 l := by
  induction l with
  | nil => simp [aupsert, alookup]
  | cons p rest ih =>
      obtain ⟨h, w⟩ := p
      by_cases hk : h = k
      · subst hk
        simp only [aupsert, if_pos rfl, alookup]
        by_cases hkk : h = k2
        · rw [if_pos hkk, if_pos hkk]
        · rw [if_neg hkk, if_neg hkk, if_neg hkk]
      · simp only [aupsert, if_neg hk, alookup, ih]
        by_cases hk2 : h = k2
        · rw [if_pos hk2, if_neg (fun he => hk (hk2.trans he.symm)), if_pos hk2]
        · rw [if_neg hk2]
          by_cases hkk : k = k2
          · rw [if_pos hkk, if_pos hkk]
          · rw [if_neg hkk, if_neg hkk, if_neg hk2]

theorem alookup_aupsert_self {α : Type} (k : Str) (v : α) (l : List (Str × α)) :
    alookup k (aupsert k v l) = some v := by
  rw [alookup_aupsert, if_pos rfl]

theorem alookup_aupsert_ne {α : Type} {k k2 : Str} (h : k ≠ k2) (v : α)
    (l : List (Str × α)) : alookup k2 (aupsert k v l) = alookup k2 l := by
  rw [alookup_aupsert, if_neg h]

theorem aupsert_aupsert {α : Type} (k : Str) (v w : α) (l : List (Str × α)) :
    aupsert k v (aupsert k w l) = aupsert k v l := by
  induction l with
  | nil => simp [aupsert]
  | cons p rest ih =>
      obtain ⟨h, x⟩ := p
      by_cases hk : h = k
      · subst hk
        simp [aupsert]
      · simp [aupsert, hk, ih]

theorem aupsert_self {α : Type} {k : Str} {v : α} :
    ∀ {l : List (Str × α)}, alookup k l = some v → aupsert k v l = l := by
  intro l
  induction l with
  | nil => intro h; simp [alookup] at h
  | cons p rest ih =>
      intro hl
      obtain ⟨h, w⟩ := p
      by_cases hk : h = k
      · subst hk
        rw [alookup, if_pos rfl] at hl
        injection hl with hwv
        subst hwv
        rw [aupsert, if_pos rfl]
      · rw [alookup, if_neg hk] at hl
        rw [aupsert, if_neg hk, ih hl]

theorem sumAbs_cons (q : Str × Int) (rest : List (Str × Int)) :
    sumAbs (q :: rest) = |q.2| + sumAbs rest := by
  simp [sumAbs]

theorem critFold (a e : Str) :
    ∀ (crits : List (Str × Int)) (check : List (Str × List (Str × EVal)))
      (m : List (Str × EVal)) (inner : List (Str × Int)) (p : Int),
      alookup a check = some m →
      alookup e m = some (EVal.dict inner) →
      alookup "points".data inner = some p →
      crits.foldlM (critStep a e) check =
        .ok (aupsert a (aupsert e (EVal.dict
          (aupsert "points".data (p + sumAbs crits) inner)) m) check) := by
  intro crits
  induction crits with
  | nil =>
      intro check m inner p ha he hp
      rw [List.foldlM_nil]
      have hz : p + sumAbs [] = p := by simp [sumAbs]
      rw [hz, aupsert_self hp, aupsert_self he, aupsert_self ha]
      rfl
  | cons q rest ih =>
      intro check m inner p ha he hp
      rw [List.foldlM_cons]
      have hstep : critStep a e check q =
          .ok (aupsert a (aupsert e (EVal.dict
            (aupsert "points".data (p + |q.2|) inner)) m) check) := by
        unfold critStep
        rw [ha]
        simp only [dictGet, Bind.bind, Except.bind]
        rw [he]
        simp only [dictGet, Bind.bind, Except.bind, EVal.asDict]
        rw [hp]
      rw [hstep]
      simp only [Bind.bind, Except.bind]
      rw [ih _ _ _ (p + |q.2|) (alookup_aupsert_self a _ check)
        (alookup_aupsert_self e _ m) (alookup_aupsert_self "points".data _ inner)]
      rw [aupsert_aupsert, aupsert_aupsert, aupsert_aupsert]
      rw [sumAbs_cons, ← add_assoc]

theorem exerciseCheck_red (a e : Str) (crits : List (Str × Int))
    (check : List (Str × List (Str × EVal))) (m : List (Str × EVal))
    (inner : List (Str × Int)) (pAcc : Int)
    (ha : alookup a check = some m)
    (he : alookup e m = some (EVal.dict inner))
    (hpts : alookup "points".data m = some (EVal.int pAcc))
    (hne : e ≠ "points".data) :
    exerciseCheck a check (e, crits) =
      (alookup "expect".data inner).elim (.error .keyError) (fun exp =>
        if sumAbs crits ≠ exp then
          .error (.valueError "Sum of points inconsistent".data)
        else
          .ok (aupsert a (aupsert "points".data (EVal.int (pAcc + sumAbs crits))
            (aupsert e (EVal.dict (aupsert "points".data (sumAbs crits) inner)) m))
            check)) := by
  have hpe : ("points".data : Str) ≠ "expect".data := by decide
  unfold exerciseCheck
  rw [ha]
  simp only [dictGet, Bind.bind, Except.bind]
  rw [he]
  simp only [dictGet, Bind.bind, Except.bind, EVal.asDict]
  rw [critFold a e crits _ _ _ 0 (alookup_aupsert_self _ _ _)
    (alookup_aupsert_self _ _ _) (alookup_aupsert_self _ _ _)]
  simp only [Bind.bind, Except.bind, dictGet, EVal.asDict, EVal.addInt,
    aupsert_aupsert, zero_add, alookup_aupsert_self, alookup_aupsert_ne hne,
    alookup_aupsert_ne hpe, hpts]
  cases hexp : alookup "expect".data inner with
  | none => rfl
  | some exp => simp only [Option.elim, dictGet, Bind.bind, Except.bind]

theorem exerciseFold_char (a : Str) :
    ∀ (exs : List (Str × List (Str × Int))) (check : List (Str × List (Str × EVal)))
      (m : List (Str × EVal)) (pAcc : Int),
      alookup a check = some m →
      alookup "points".data m = some (EVal.int pAcc) →
      (exs.map Prod.fst).Nodup →
      (∀ q ∈ exs, q.1 ≠ "expect".data ∧ q.1 ≠ "points".data) →
      (goodExercises exs m ∧ ∃ m2,
        exs.foldlM (exerciseCheck a) check = .ok (aupsert a m2 check) ∧
        alookup "points".data m2 =
          some (EVal.int (pAcc + (exs.map (fun q => sumAbs q.2)).sum)) ∧
        alookup "expect".data m2 = alookup "expect".data m) ∨
      (¬goodExercises exs m ∧ isOk (exs.foldlM (exerciseCheck a) check) = false) := by
  intro exs
  induction exs with
  | nil =>
      intro check m pAcc ha hpts _ _
      left
      refine ⟨fun q hq => absurd hq (List.not_mem_nil q), m, ?_, ?_, rfl⟩
      · rw [List.foldlM_nil, aupsert_self ha]
        rfl
      · simpa using hpts
  | cons pe rest ih =>
      intro check m pAcc ha hpts hnd hres
      obtain ⟨e, crits⟩ := pe
      have hrese := hres (e, crits) (List.mem_cons_self _ _)
      rw [List.map_cons] at hnd
      have hndc := List.nodup_cons.mp hnd
      rw [List.foldlM_cons]
      cases hev : alookup e m with
      | none =>
          have hstep : exerciseCheck a check (e, crits) = .error .keyError := by
            unfold exerciseCheck
            rw [ha]
            simp only [dictGet, Bind.bind, Except.bind]
            rw [hev]
          right
          constructor
          · intro hg
            obtain ⟨inner, hi, _⟩ := hg (e, crits) (List.mem_cons_self _ _)
            rw [hev] at hi
            cases hi
          · rw [hstep]
            rfl
      | some ev =>
          cases ev with
          | int n =>
              have hstep : exerciseCheck a check (e, crits) = .error .typeError := by
                unfold exerciseCheck
                rw [ha]
                simp only [dictGet, Bind.bind, Except.bind]
                rw [hev]
                rfl
              right
              constructor
              · intro hg
                obtain ⟨inner, hi, _⟩ := hg (e, crits) (List.mem_cons_self _ _)
                rw [hev] at hi
                simp at hi
              · rw [hstep]
                rfl
          | dict inner =>
              have hred := exerciseCheck_red a e crits check m inner pAcc ha hev hpts hrese.2
              cases hexp : alookup "expect".data inner with
              | none =>
                  rw [hexp] at hred
                  simp only [Option.elim] at hred
                  right
                  constructor
                  · intro hg
                    obtain ⟨inner2, hi, hie⟩ := hg (e, crits) (List.mem_cons_self _ _)
                    rw [hev, Option.some_inj, EVal.dict.injEq] at hi
                    rw [← hi, hexp] at hie
                    cases hie
                  · rw [hred]
                    rfl
              | some exp =>
                  rw [hexp] at hred
                  simp only [Option.elim] at hred
                  by_cases hif : sumAbs crits ≠ exp
                  · rw [if_pos hif] at hred
                    right
                    constructor
                    · intro hg
                      obtain ⟨inner2, hi, hie⟩ := hg (e, crits) (List.mem_cons_self _ _)
                      rw [hev, Option.some_inj, EVal.dict.injEq] at hi
                      rw [← hi, hexp, Option.some_inj] at hie
                      exact hif hie.symm
                    · rw [hred]
                      rfl
                  · rw [if_neg hif] at hred
                    have heq : sumAbs crits = exp := not_not.mp hif
                    rw [hred]
                    simp only [Bind.bind, Except.bind]
                    set m' := aupsert "points".data (EVal.int (pAcc + sumAbs crits))
                      (aupsert e (EVal.dict (aupsert "points".data (sumAbs crits) inner)) m)
                      with hm'
                    have htrans : ∀ q ∈ rest, alookup q.1 m' = alookup q.1 m := by
                      intro q hq
                      have hq1 : "points".data ≠ q.1 :=
                        fun h => (hres q (List.mem_cons_of_mem _ hq)).2 h.symm
                      have hq2 : e ≠ q.1 := by
                        intro hcon
                        exact hndc.1 (List.mem_map.mpr ⟨q, hq, hcon.symm⟩)
                      rw [hm', alookup_aupsert_ne hq1, alookup_aupsert_ne hq2]
                    rcases ih (aupsert a m' check) m' (pAcc + sumAbs crits)
                        (alookup_aupsert_self _ _ _) (alookup_aupsert_self _ _ _)
                        hndc.2 (fun q hq => hres q (List.mem_cons_of_mem _ hq)) with
                      ⟨hgr, m2, hfold, hp2, he2⟩ | ⟨hngr, herr⟩
                    · left
                      constructor
                      · intro q hq
                        rcases List.mem_cons.mp hq with rfl | hq'
                        · exact ⟨inner, hev, by rw [hexp, heq]⟩
                        · obtain ⟨i2, hi2, hie2⟩ := hgr q hq'
                          exact ⟨i2, by rw [← htrans q hq']; exact hi2, hie2⟩
                      · refine ⟨m2, ?_, ?_, ?_⟩
                        · rw [hfold, aupsert_aupsert]
                        · rw [hp2, List.map_cons, List.sum_cons, ← add_assoc]
                        · rw [he2, hm',
                            alookup_aupsert_ne (show ("points".data : Str) ≠ "expect".data
                              from by decide),
                            alookup_aupsert_ne hrese.1]
                    · right
                      constructor
                      · intro hg
                        apply hngr
                        intro q hq
                        obtain ⟨i2, hi2, hie2⟩ := hg q (List.mem_cons_of_mem _ hq)
                        exact ⟨i2, by rw [htrans q hq]; exact hi2, hie2⟩
                      · exact herr

theorem assignmentCheck_red (a : Str) (exs : List (Str × List (Str × Int)))
    (check : List (Str × List (Str × EVal))) (m : List (Str × EVal))
    (ha : alookup a check = some m)
    (hnd : (exs.map Prod.fst).Nodup)
    (hres : ∀ q ∈ exs, q.1 ≠ "expect".data ∧ q.1 ≠ "points".data) :
    (goodAssignment exs m ∧ ∃ ck2, assignmentCheck check (a, exs) = .ok ck2 ∧
      ∀ k, a ≠ k → alookup k ck2 = alookup k check) ∨
    (¬goodAssignment exs m ∧ isOk (assignmentCheck check (a, exs)) = false) := by
  have hpe : ("points".data : Str) ≠ "expect".data := by decide
  unfold assignmentCheck
  rw [ha]
  simp only [dictGet, Bind.bind, Except.bind]
  set m1 := aupsert "points".data (EVal.int 0) m with hm1
  set check1 := aupsert a m1 check with hc1
  have h1 : alookup a check1 = some m1 := alookup_aupsert_self _ _ _
  have hp1 : alookup "points".data m1 = some (EVal.int 0) := alookup_aupsert_self _ _ _
  have htrans : ∀ q, q ∈ exs → alookup q.1 m1 = alookup q.1 m := by
    intro q hq
    exact alookup_aupsert_ne (fun h => (hres q hq).2 h.symm) _ _
  have hgiff : goodExercises exs m1 ↔ goodExercises exs m := by
    constructor <;> intro hg q hq <;> obtain ⟨i2, hi2, hie⟩ := hg q hq
    · exact ⟨i2, by rw [← htrans q hq]; exact hi2, hie⟩
    · exact ⟨i2, by rw [htrans q hq]; exact hi2, hie⟩
  rcases exerciseFold_char a exs check1 m1 0 h1 hp1 hnd hres with
    ⟨hgood, m2, hfold, hp2, he2⟩ | ⟨hbad, herr⟩
  · rw [hfold]
    simp only [Bind.bind, Except.bind]
    rw [alookup_aupsert_self]
    simp only [dictGet, Bind.bind, Except.bind]
    rw [hp2, zero_add]
    simp only [dictGet, Bind.bind, Except.bind]
    have hem : alookup "expect".data m2 = alookup "expect".data m := by
      rw [he2, hm1, alookup_aupsert_ne hpe]
    rw [hem]
    cases hex : alookup "expect".data m with
    | none =>
        right
        constructor
        · intro hga
          have h2 := hga.2
          rw [hex] at h2
          cases h2
        · rfl
    | some ev =>
        cases ev with
        | dict d =>
            right
            constructor
            · intro hga
              have h2 := hga.2
              rw [hex] at h2
              simp at h2
            · simp only [dictGet, Bind.bind, Except.bind, EVal.pyNe]
              rfl
        | int x =>
            simp only [dictGet, Bind.bind, Except.bind]
            by_cases hxx : ((exs.map (fun q => sumAbs q.2)).sum) = x
            · left
              refine ⟨⟨hgiff.mp hgood, by rw [hex, hxx]⟩, aupsert a m2 check1, ?_, ?_⟩
              · have hpn : EVal.pyNe
                    (EVal.int ((exs.map (fun q => sumAbs q.2)).sum)) (EVal.int x) = false := by
                  simp [EVal.pyNe, hxx]
                rw [hpn]
                rfl
              · intro k hk
                rw [alookup_aupsert_ne hk, hc1, alookup_aupsert_ne hk]
            · right
              constructor
              · intro hga
                have h2 := hga.2
                rw [hex, Option.some_inj, EVal.int.injEq] at h2
                exact hxx h2.symm
              · have hpn : EVal.pyNe
                    (EVal.int ((exs.map (fun q => sumAbs q.2)).sum)) (EVal.int x) = true := by
                  simp [EVal.pyNe, bne_iff_ne]
                  exact fun h => hxx h
                rw [hpn]
                rfl
  · right
    constructor
    · intro hga
      exact hbad (hgiff.mpr hga.1)
    · cases hfd : exs.foldlM (exerciseCheck a) check1 with
      | ok ck =>
          rw [hfd] at herr
          simp [isOk] at herr
      | error e2 => rfl

theorem assignmentFold_char :
    ∀ (g : List (Str × List (Str × List (Str × Int))))
      (check : List (Str × List (Str × EVal))),
      (g.map Prod.fst).Nodup →
      (∀ p ∈ g, (p.2.map Prod.fst).Nodup ∧
        ∀ q ∈ p.2, q.1 ≠ "expect".data ∧ q.1 ≠ "points".data) →
      (schemeConsistent g check → ∃ ck2, g.foldlM assignmentCheck check = .ok ck2) ∧
      (¬schemeConsistent g check → isOk (g.foldlM assignmentCheck check) = false) := by
  intro g
  induction g with
  | nil =>
      intro check _ _
      constructor
      · intro _
        exact ⟨check, rfl⟩
      · intro hng
        exact absurd (fun p hp => absurd hp (List.not_mem_nil p)) hng
  | cons pa rest ih =>
      intro check hnd hstr
      obtain ⟨a, exs⟩ := pa
      have hstra := hstr (a, exs) (List.mem_cons_self _ _)
      rw [List.map_cons] at hnd
      have hndc := List.nodup_cons.mp hnd
      cases halook : alookup a check with
      | none =>
          have hstep : assignmentCheck check (a, exs) = .error .keyError := by
            unfold assignmentCheck
            rw [halook]
            rfl
          constructor
          · intro hg
            obtain ⟨m, hm, _⟩ := hg (a, exs) (List.mem_cons_self _ _)
            rw [halook] at hm
            cases hm
          · intro _
            rw [List.foldlM_cons, hstep]
            rfl
      | some m =>
          rcases assignmentCheck_red a exs check m halook hstra.1 hstra.2 with
            ⟨hgA, ck2, hstep, hpres⟩ | ⟨hngA, herrA⟩
          · have hane : ∀ p ∈ rest, a ≠ p.1 := by
              intro p hp hcon
              exact hndc.1 (List.mem_map.mpr ⟨p, hp, hcon.symm⟩)
            have hiff : schemeConsistent rest ck2 ↔ schemeConsistent rest check := by
              constructor <;> intro hs p hp <;> obtain ⟨mp, hmp, hgp⟩ := hs p hp
              · refine ⟨mp, ?_, hgp⟩
                rw [← hpres p.1 (hane p hp)]
                exact hmp
              · refine ⟨mp, ?_, hgp⟩
                rw [hpres p.1 (hane p hp)]
                exact hmp
            have hres2 := ih ck2 hndc.2 (fun p hp => hstr p (List.mem_cons_of_mem _ hp))
            constructor
            · intro hg
              have hrest : schemeConsistent rest check :=
                fun p hp => hg p (List.mem_cons_of_mem _ hp)
              obtain ⟨ckf, hf⟩ := hres2.1 (hiff.mpr hrest)
              refine ⟨ckf, ?_⟩
              rw [List.foldlM_cons, hstep]
              simp only [Bind.bind, Except.bind]
              exact hf
            · intro hng
              have hngrest : ¬schemeConsistent rest check := by
                intro hrest
                apply hng
                intro p hp
                rcases List.mem_cons.mp hp with rfl | hp'
                · exact ⟨m, halook, hgA⟩
                · exact hrest p hp'
              have herr := hres2.2 (fun hs => hngrest (hiff.mp hs))
              rw [List.foldlM_cons, hstep]
              simp only [Bind.bind, Except.bind]
              exact herr
          · constructor
            · intro hg
              obtain ⟨m2, hm2, hgood2⟩ := hg (a, exs) (List.mem_cons_self _ _)
              rw [halook, Option.some_inj] at hm2
              exact absurd (by rw [hm2]; exact hgood2) hngA
            · intro _
              cases hstep2 : assignmentCheck check (a, exs) with
              | ok ck =>
                  rw [hstep2] at herrA
                  cases herrA
              | error e2 =>
                  rw [List.foldlM_cons, hstep2]
                  rfl

/-- The structural invariant of every state the building loop produces: the
assignment keys of the scheme are pairwise distinct, and so are the exercise
keys inside each assignment (Python dicts cannot hold a key twice). -/
def buildInv (st : GradingState) : Prop :=
  (st.grading.map Prod.fst).Nodup ∧ ∀ p ∈ st.grading, (p.2.map Prod.fst).Nodup

theorem mem_keys_aupsert {α : Type} (k x : Str) (v : α) :
    ∀ l : List (Str × α), x ∈ (aupsert k v l).map Prod.fst →
      x ∈ l.map Prod.fst ∨ x = k := by
  intro l
  induction l with
  | nil =>
      intro h
      simp [aupsert] at h
      exact Or.inr h
  | cons p rest ih =>
      intro h
      obtain ⟨h0, w⟩ := p
      by_cases hk : h0 = k
      · rw [aupsert, if_pos hk, List.map_cons, List.mem_cons] at h
        rcases h with he | h'
        · exact Or.inr he
        · exact Or.inl (by rw [List.map_cons]; exact List.mem_cons_of_mem _ h')
      · rw [aupsert, if_neg hk, List.map_cons, List.mem_cons] at h
        rcases h with he | h'
        · exact Or.inl (by rw [List.map_cons, he]; exact List.mem_cons_self _ _)
        · rcases ih h' with hm | he
          · exact Or.inl (by rw [List.map_cons]; exact List.mem_cons_of_mem _ hm)
          · exact Or.inr he

theorem nodup_keys_aupsert {α : Type} (k : Str) (v : α) :
    ∀ l : List (Str × α), (l.map Prod.fst).Nodup →
      ((aupsert k v l).map Prod.fst).Nodup := by
  intro l
  induction l with
  | nil =>
      intro _
      simp [aupsert]
  | cons p rest ih =>
      intro h
      obtain ⟨h0, w⟩ := p
      rw [List.map_cons] at h
      have hh := List.nodup_cons.mp h
      by_cases hk : h0 = k
      · subst hk
        simp only [aupsert, if_pos rfl, List.map_cons]
        exact List.nodup_cons.mpr hh
      · simp only [aupsert, if_neg hk, List.map_cons]
        refine List.nodup_cons.mpr ⟨?_, ih hh.2⟩
        intro hcon
        rcases mem_keys_aupsert k h0 v rest hcon with hm | he
        · exact hh.1 hm
        · exact hk he

theorem mem_aupsert {α : Type} (k : Str) (v : α) {p : Str × α} :
    ∀ l : List (Str × α), p ∈ aupsert k v l → p ∈ l ∨ p = (k, v) := by
  intro l
  induction l with
  | nil =>
      intro h
      simp [aupsert] at h
      exact Or.inr h
  | cons q rest ih =>
      intro h
      obtain ⟨h0, w⟩ := q
      by_cases hk : h0 = k
      · rw [aupsert, if_pos hk] at h
        rcases List.mem_cons.mp h with rfl | h'
        · exact Or.inr rfl
        · exact Or.inl (List.mem_cons_of_mem _ h')
      · rw [aupsert, if_neg hk] at h
        rcases List.mem_cons.mp h with rfl | h'
        · exact Or.inl (List.mem_cons_self _ _)
        · rcases ih h' with hm | he
          · exact Or.inl (List.mem_cons_of_mem _ hm)
          · exact Or.inr he

theorem aupdate_keys {α : Type} (k : Str) (f : α → Except PyError α) :
    ∀ {l l2 : List (Str × α)}, aupdate k f l = .ok l2 →
      l2.map Prod.fst = l.map Prod.fst := by
  intro l
  induction l with
  | nil =>
      intro l2 h
      rw [aupdate] at h
      cases h
  | cons p rest ih =>
      intro l2 h
      obtain ⟨h0, w⟩ := p
      rw [aupdate] at h
      by_cases hk : h0 = k
      · rw [if_pos hk] at h
        cases hf : f w with
        | error e =>
            rw [hf] at h
            simp only [Bind.bind, Except.bind] at h
            cases h
        | ok v2 =>
            rw [hf] at h
            simp only [Bind.bind, Except.bind] at h
            cases h
            simp [List.map_cons]
      · rw [if_neg hk] at h
        cases hr : aupdate k f rest with
        | error e =>
            rw [hr] at h
            simp only [Bind.bind, Except.bind] at h
            cases h
        | ok r2 =>
            rw [hr] at h
            simp only [Bind.bind, Except.bind] at h
            cases h
            simp only [List.map_cons, ih hr]

theorem mem_aupdate {α : Type} (k : Str) (f : α → Except PyError α) :
    ∀ {l l2 : List (Str × α)}, aupdate k f l = .ok l2 →
      ∀ p ∈ l2, p ∈ l ∨ ∃ v, (p.1, v) ∈ l ∧ f v = .ok p.2 := by
  intro l
  induction l with
  | nil =>
      intro l2 h
      rw [aupdate] at h
      cases h
  | cons q rest ih =>
      intro l2 h p hp
      obtain ⟨h0, w⟩ := q
      rw [aupdate] at h
      by_cases hk : h0 = k
      · rw [if_pos hk] at h
        cases hf : f w with
        | error e =>
            rw [hf] at h
            simp only [Bind.bind, Except.bind] at h
            cases h
        | ok v2 =>
            rw [hf] at h
            simp only [Bind.bind, Except.bind] at h
            cases h
            rcases List.mem_cons.mp hp with rfl | hp'
            · exact Or.inr ⟨w, List.mem_cons_self _ _, hf⟩
            · exact Or.inl (List.mem_cons_of_mem _ hp')
      · rw [if_neg hk] at h
        cases hr : aupdate k f rest with
        | error e =>
            rw [hr] at h
            simp only [Bind.bind, Except.bind] at h
            cases h
        | ok r2 =>
            rw [hr] at h
            simp only [Bind.bind, Except.bind] at h
            cases h
            rcases List.mem_cons.mp hp with rfl | hp'
            · exact Or.inl (List.mem_cons_self _ _)
            · rcases ih hr p hp' with hm | ⟨v, hv, hfv⟩
              · exact Or.inl (List.mem_cons_of_mem _ hm)
              · exact Or.inr ⟨v, List.mem_cons_of_mem _ hv, hfv⟩

theorem gradingStep_inv {acc : GradingState × Option Str × Option Str} {row : GradingRow}
    {acc2 : GradingState × Option Str × Option Str}
    (h : gradingStep acc row = .ok acc2) (hinv : buildInv acc.1) : buildInv acc2.1 := by
  obtain ⟨st, a0, e0⟩ := acc
  simp only [gradingStep] at h
  by_cases h1 : (boldCell row.c0 && row.c1.isEmpty) = true
  · rw [if_pos h1] at h
    cases hi : int_parse (pyStrip row.c2) with
    | error e =>
        rw [hi] at h
        simp only [Bind.bind, Except.bind] at h
        cases h
    | ok v =>
        rw [hi] at h
        simp only [Bind.bind, Except.bind] at h
        cases h
        constructor
        · exact nodup_keys_aupsert _ _ _ hinv.1
        · intro p hp
          rcases mem_aupsert _ _ _ hp with hm | rfl
          · exact hinv.2 p hm
          · simp
  · rw [if_neg h1] at h
    by_cases h2 : (pyStrip row.c0).isEmpty = true
    · rw [if_pos h2] at h
      cases a0 with
      | none => cases h
      | some a =>
          simp only [] at h
          by_cases ha : a.isEmpty = true
          · rw [if_pos ha] at h
            cases h
          · rw [if_neg ha] at h
            cases e0 with
            | none => cases h
            | some ex =>
                simp only [] at h
                by_cases hex : ex.isEmpty = true
                · rw [if_pos hex] at h
                  cases h
                · rw [if_neg hex] at h
                  cases hi : int_parse (pyStrip row.c2) with
                  | error e =>
                      rw [hi] at h
                      simp only [Bind.bind, Except.bind] at h
                      cases h
                  | ok pts =>
                      rw [hi] at h
                      simp only [Bind.bind, Except.bind] at h
                      cases hup : aupdate a (fun exs =>
                          aupdate ex (fun crits =>
                            .ok (aupsert (pyStrip row.c1) pts crits)) exs) st.grading with
                      | error e =>
                          rw [hup] at h
                          simp only [Bind.bind, Except.bind] at h
                          cases h
                      | ok g2 =>
                          rw [hup] at h
                          simp only [Bind.bind, Except.bind] at h
                          cases h
                          constructor
                          · rw [aupdate_keys _ _ hup]
                            exact hinv.1
                          · intro p hp
                            rcases mem_aupdate _ _ hup p hp with hm | ⟨v, hv, hfv⟩
                            · exact hinv.2 p hm
                            · cases hin : aupdate ex (fun crits =>
                                  .ok (aupsert (pyStrip row.c1) pts crits)) v with
                              | error e =>
                                  rw [hin] at hfv
                                  cases hfv
                              | ok v2 =>
                                  rw [hin] at hfv
                                  injection hfv with hv2
                                  rw [← hv2, aupdate_keys _ _ hin]
                                  exact hinv.2 (p.1, v) hv
    · rw [if_neg h2] at h
      cases a0 with
      | none => cases h
      | some a =>
          simp only [] at h
          by_cases ha : a.isEmpty = true
          · rw [if_pos ha] at h
            cases h
          · rw [if_neg ha] at h
            cases hup : aupdate a (fun exs =>
                .ok (aupsert (pyStrip row.c0) [] exs)) st.grading with
            | error e =>
                rw [hup] at h
                simp only [Bind.bind, Except.bind] at h
                cases h
            | ok g2 =>
                rw [hup] at h
                simp only [Bind.bind, Except.bind] at h
                cases hi : int_parse (pyStrip row.c2) with
                | error e =>
                    rw [hi] at h
                    simp only [Bind.bind, Except.bind] at h
                    cases h
                | ok v =>
                    rw [hi] at h
                    simp only [Bind.bind, Except.bind] at h
                    cases hup2 : aupdate a (fun m =>
                        .ok (aupsert (pyStrip row.c0)
                          (EVal.dict [("expect".data, v)]) m)) st.check with
                    | error e =>
                        rw [hup2] at h
                        simp only [Bind.bind, Except.bind] at h
                        cases h
                    | ok c2 =>
                        rw [hup2] at h
                        simp only [Bind.bind, Except.bind] at h
                        cases h
                        constructor
                        · rw [aupdate_keys _ _ hup]
                          exact hinv.1
                        · intro p hp
                          rcases mem_aupdate _ _ hup p hp with hm | ⟨v2, hv, hfv⟩
                          · exact hinv.2 p hm
                          · injection hfv with hv2
                            rw [← hv2]
                            exact nodup_keys_aupsert _ _ _ (hinv.2 (p.1, v2) hv)

theorem build_inv :
    ∀ (table : List GradingRow) (acc : GradingState × Option Str × Option Str)
      {res : GradingState × Option Str × Option Str},
      table.foldlM gradingStep acc = .ok res → buildInv acc.1 → buildInv res.1 := by
  intro table
  induction table with
  | nil =>
      intro acc res h hi
      rw [List.foldlM_nil] at h
      cases h
      exact hi
  | cons row rest ih =>
      intro acc res h hi
      rw [List.foldlM_cons] at h
      cases hs : gradingStep acc row with
      | error e =>
          rw [hs] at h
          simp only [Bind.bind, Except.bind] at h
          cases h
      | ok acc2 =>
          rw [hs] at h
          simp only [Bind.bind, Except.bind] at h
          exact ih acc2 h (gradingStep_inv hs hi)

theorem sumsConsistent_iff (st : GradingState) :
    sumsConsistent st = true ↔ schemeConsistent st.grading st.check := by
  unfold sumsConsistent schemeConsistent goodAssignment goodExercises
  rw [List.all_eq_true]
  constructor
  · intro h p hp
    have h2 := h p hp
    cases hm : alookup p.1 st.check with
    | none =>
        rw [hm] at h2
        cases h2
    | some m =>
        rw [hm] at h2
        rw [Bool.and_eq_true, List.all_eq_true] at h2
        refine ⟨m, rfl, ?_, of_decide_eq_true h2.2⟩
        intro q hq
        have h3 := h2.1 q hq
        cases hqm : alookup q.1 m with
        | none =>
            rw [hqm] at h3
            cases h3
        | some ev =>
            cases ev with
            | int n =>
                rw [hqm] at h3
                cases h3
            | dict inner =>
                rw [hqm] at h3
                exact ⟨inner, rfl, of_decide_eq_true h3⟩
  · intro h p hp
    obtain ⟨m, hm, hq, he⟩ := h p hp
    simp only [hm]
    rw [Bool.and_eq_true]
    constructor
    · rw [List.all_eq_true]
      intro q hqm
      obtain ⟨inner, hi, hie⟩ := hq q hqm
      simp only [hi]
      exact decide_eq_true hie
    · exact decide_eq_true he

/-- C7 (amended): for every well-formed grading-points table (one on which
the building loop succeeds) in which no exercise is literally named `expect`
or `points` — the reserved keys of the parser's bookkeeping dict — parsing
succeeds and returns the scheme if and only if for every exercise the sum of
the absolute criterion point values equals the exercise's declared total and
for every assignment the sum of its exercise totals equals the assignment's
declared total; otherwise the parse raises an error (the only successful
result is the scheme itself). Without the reserved-name condition the
equivalence fails: `parse_grading_points_cex` exhibits a sum-consistent
table with an exercise named `expect` that the parser rejects, because the
exercise's bookkeeping dict overwrites the assignment's declared-total slot
and the final Python `!=` between an int and a dict is always true. -/
theorem parse_grading_points_spec (table : List GradingRow) (st : GradingState)
    (a0 e0 : Option Str) (hne : table ≠ [])
    (hbuild : table.foldlM gradingStep (initGradingState, none, none) = .ok (st, a0, e0))
    (hres : ∀ p ∈ st.grading, ∀ q ∈ p.2, q.1 ≠ "expect".data ∧ q.1 ≠ "points".data) :
    (parse_grading_points table = .ok st.grading ↔ sumsConsistent st = true) ∧
    (parse_grading_points table = .ok st.grading ∨
      isOk (parse_grading_points table) = false) := by
  have hinv0 : buildInv initGradingState :=
    ⟨List.nodup_nil, fun p hp => absurd hp (List.not_mem_nil p)⟩
  have hinv : buildInv st := build_inv table _ hbuild hinv0
  have hchar := assignmentFold_char st.grading st.check hinv.1
    (fun p hp => ⟨hinv.2 p hp, hres p hp⟩)
  unfold parse_grading_points
  rw [if_neg (by simp [List.isEmpty_iff, hne])]
  rw [hbuild]
  simp only [Bind.bind, Except.bind]
  cases hc : st.grading.foldlM assignmentCheck st.check with
  | ok ck2 =>
      have hgood : schemeConsistent st.grading st.check := by
        by_contra hng
        have h2 := hchar.2 hng
        rw [hc] at h2
        cases h2
      constructor
      · constructor
        · intro _
          exact (sumsConsistent_iff st).mpr hgood
        · intro _
          rfl
      · exact Or.inl rfl
  | error e =>
      have hng : ¬schemeConsistent st.grading st.check := by
        intro hg
        obtain ⟨ck2, h2⟩ := hchar.1 hg
        rw [hc] at h2
        cases h2
      constructor
      · constructor
        · intro hcon
          cases hcon
        · intro hsums
          exact absurd ((sumsConsistent_iff st).mp hsums) hng
      · exact Or.inr rfl

/-- A concrete grading table: one assignment with declared total 10, one
exercise with declared total 10, one criterion worth 10 points. -/
def pointsTable : List GradingRow :=
  [⟨"*A1*".data, [], "10".data⟩,
   ⟨"Exercise 1".data, [], "10".data⟩,
   ⟨[], "correctness".data, "10".data⟩]

/-- The state the building loop reaches on `pointsTable`. -/
def pointsState : GradingState :=
  ⟨[("A1".data, [("Exercise 1".data, [("correctness".data, (10 : Int))])])],
   [("A1".data, [("expect".data, EVal.int 10),
     ("Exercise 1".data, EVal.dict [("expect".data, (10 : Int))])])]⟩

/-- Witness for `parse_grading_points_spec`: the concrete consistent table
parses to its scheme. -/
theorem parse_grading_points_spec_witness :
    parse_grading_points pointsTable = .ok pointsState.grading :=
  (parse_grading_points_spec pointsTable pointsState (some "A1".data)
    (some "Exercise 1".data) (by decide) (by decide) (by decide)).1.mpr (by decide)

/-- The same table with its single exercise literally named `expect`. -/
def expectTable : List GradingRow :=
  [⟨"*A1*".data, [], "10".data⟩,
   ⟨"expect".data, [], "10".data⟩,
   ⟨[], "correctness".data, "10".data⟩]

/-- The state the building loop reaches on `expectTable`: the exercise row
overwrote the slot holding the assignment's declared total with the
exercise's own bookkeeping dict. -/
def expectState : GradingState :=
  ⟨[("A1".data, [("expect".data, [("correctness".data, (10 : Int))])])],
   [("A1".data, [("expect".data, EVal.dict [("expect".data, (10 : Int))])])]⟩

/-- C7 counterexample: `expectTable` declares an assignment total of 10 and
one exercise (named `expect`) with declared total 10 and a single criterion
worth 10 points — every sum matches its declared total, yet the parser
raises ValueError instead of returning the scheme, because the exercise name
collides with the bookkeeping dict's `expect` slot. -/
theorem parse_grading_points_cex :
    parse_grading_points expectTable =
      .error (.valueError "Sum of points inconsistent".data) ∧
    expectTable.foldlM gradingStep (initGradingState, none, none) =
      .ok (expectState, some "A1".data, some "expect".data) ∧
    (∀ p ∈ expectState.grading, ∀ q ∈ p.2, sumAbs q.2 = 10) ∧
    (∀ p ∈ expectState.grading, (p.2.map (fun q => sumAbs q.2)).sum = 10) :=
  ⟨by decide, by decide, by decide, by decide⟩

/-! ### The row-aggregation splitter

The reorganization loop of `create_group_spreadsheets` (control.py:1427-1439),
with `max_values_per_sum = 12` (control.py:1369):
```
i = 0
while i < len(consider):
    special = 2 if i == 0 else 0
    if len(consider[i]) + len(consider) - special > max_values_per_sum:
        value = consider[i].pop()
        while i + 1 >= len(consider):
            consider.append([])
        consider[i + 1].append(value)
        i = 0
    else:
        i += 1
```
`list.pop()` on an empty list raises `IndexError`; the guard arithmetic is
signed; the inner `while` appends at most one empty bucket since
`i < len(consider)` holds on entry. -/

/-- Outcome of running the reorganization loop with bounded fuel. -/
inductive ReorgResult where
  | ok (buckets : List (List Nat))
  | indexError
  | outOfFuel
deriving DecidableEq, Repr

/-- The eviction step of one iteration: drop the most recent reference of
bucket `i`, make sure bucket `i + 1` exists (the inner `while` appends at
most one empty bucket), and append the evicted reference to bucket `i + 1`. -/
def evict (c : List (List Nat)) (i : Nat) (bucket : List Nat) (value : Nat) :
    List (List Nat) :=
  let c1 := c.set i bucket.dropLast
  let c2 := if c1.length ≤ i + 1 then c1 ++ [[]] else c1
  c2.set (i + 1) (c2.getD (i + 1) [] ++ [value])

/-- The reorganization loop; one unit of fuel per iteration of the outer
`while`. Bucket entries are the accumulated criterion row numbers; the
`if i = 0 then 2 else 0` term is the `special` reservation. -/
def reorganize (fuel : Nat) (consider : List (List Nat)) (i : Nat) : ReorgResult :=
  match fuel with
  | 0 => .outOfFuel
  | fuel + 1 =>
      if h : i < consider.length then
        let bucket := consider.get ⟨i, h⟩
        if (bucket.length : Int) + (consider.length : Int)
            - (if i = 0 then 2 else 0) > 12 then
          match bucket.getLast? with
          | none => .indexError
          | some value => reorganize fuel (evict consider i bucket value) 0
        else
          reorganize fuel consider (i + 1)
      else
        .ok consider

/-- The multiset of all row references held in the buckets. -/
def msum (l : List (List Nat)) : Multiset Nat :=
  (l.map (fun b => (b : Multiset Nat))).sum

theorem msum_nil : msum [] = 0 := rfl

theorem msum_cons (a : List Nat) (t : List (List Nat)) :
    msum (a :: t) = (a : Multiset Nat) + msum t := rfl

theorem msum_set (l : List (List Nat)) (j : Nat) (x : List Nat) (hj : j < l.length) :
    msum (l.set j x) + (l.get ⟨j, hj⟩ : Multiset Nat) = msum l + (x : Multiset Nat) := by
  induction l generalizing j with
  | nil => cases hj
  | cons a t ih =>
      cases j with
      | zero =>
          have hga : (a :: t).get ⟨0, hj⟩ = a := rfl
          rw [List.set_cons_zero, msum_cons, msum_cons, hga]
          abel
      | succ j =>
          have hjt : j < t.length := by simpa using hj
          have hgs : (a :: t).get ⟨j + 1, hj⟩ = t.get ⟨j, hjt⟩ := rfl
          rw [List.set_cons_succ, msum_cons, msum_cons, hgs]
          rw [add_assoc, ih j hjt, add_assoc]

theorem msum_append_nil (l : List (List Nat)) : msum (l ++ [[]]) = msum l := by
  induction l with
  | nil => rfl
  | cons a t ih => rw [List.cons_append, msum_cons, msum_cons, ih]

theorem msum_flatten (l : List (List Nat)) :
    (l.flatten : Multiset Nat) = msum l := by
  induction l with
  | nil => rfl
  | cons a t ih =>
      rw [List.flatten_cons, msum_cons, ← ih]
      rfl

theorem cancel_right_multiset (c : Multiset Nat) {a b : Multiset Nat}
    (h : a + c = b + c) : a = b :=
  add_right_cancel h

theorem evict_msum (c : List (List Nat)) (i : Nat) (hi : i < c.length) (value : Nat)
    (hlast : (c.get ⟨i, hi⟩).getLast? = some value) :
    msum (evict c i (c.get ⟨i, hi⟩) value) = msum c := by
  simp only [evict]
  set bucket := c.get ⟨i, hi⟩ with hbucket
  set c1 := c.set i bucket.dropLast with hc1
  set c2 := if c1.length ≤ i + 1 then c1 ++ [[]] else c1 with hc2
  have hlen1 : c1.length = c.length := by rw [hc1]; simp
  have hlen2 : i + 1 < c2.length := by
    rw [hc2]
    by_cases hb : c1.length ≤ i + 1
    · rw [if_pos hb]
      simp only [List.length_append, List.length_cons, List.length_nil]
      omega
    · rw [if_neg hb]
      omega
  have hm2 : msum c2 = msum c1 := by
    rw [hc2]
    by_cases hb : c1.length ≤ i + 1
    · rw [if_pos hb, msum_append_nil]
    · rw [if_neg hb]
  have hgetD : c2.getD (i + 1) [] = c2.get ⟨i + 1, hlen2⟩ :=
    List.getD_eq_get c2 [] hlen2
  have hm3 : msum (c2.set (i + 1) (c2.getD (i + 1) [] ++ [value])) =
      msum c2 + {value} := by
    apply cancel_right_multiset (c2.get ⟨i + 1, hlen2⟩ : Multiset Nat)
    have hstep := msum_set c2 (i + 1) (c2.getD (i + 1) [] ++ [value]) hlen2
    rw [hstep, hgetD]
    have hco : ((c2.get ⟨i + 1, hlen2⟩ ++ [value] : List Nat) : Multiset Nat) =
        (c2.get ⟨i + 1, hlen2⟩ : Multiset Nat) + {value} := by
      rw [show ((c2.get ⟨i + 1, hlen2⟩ ++ [value] : List Nat) : Multiset Nat) =
        (c2.get ⟨i + 1, hlen2⟩ : Multiset Nat) + ([value] : Multiset Nat) from rfl]
      rw [Multiset.coe_singleton]
    rw [hco]
    abel
  have hsplit : (bucket : Multiset Nat) =
      (bucket.dropLast : Multiset Nat) + {value} := by
    conv_lhs => rw [← List.dropLast_append_getLast? value hlast]
    rw [show ((bucket.dropLast ++ [value] : List Nat) : Multiset Nat) =
      (bucket.dropLast : Multiset Nat) + ([value] : Multiset Nat) from rfl]
    rw [Multiset.coe_singleton]
  have hm1 : msum c1 + (bucket : Multiset Nat) =
      msum c + (bucket.dropLast : Multiset Nat) := by
    rw [hc1, hbucket]
    exact msum_set c i (c.get ⟨i, hi⟩).dropLast hi
  have hm1' : msum c1 + {value} = msum c := by
    apply cancel_right_multiset (bucket.dropLast : Multiset Nat)
    rw [add_right_comm, add_assoc, ← hsplit, hm1]
  rw [hm3, hm2, hm1']

theorem reorganize_msum (fuel : Nat) :
    ∀ (c : List (List Nat)) (i : Nat) (b : List (List Nat)),
      reorganize fuel c i = .ok b → msum b = msum c := by
  induction fuel with
  | zero => intro c i b h; cases h
  | succ fuel ih =>
      intro c i b h
      simp only [reorganize] at h
      by_cases hi : i < c.length
      · rw [dif_pos hi] at h
        by_cases hguard : ((c.get ⟨i, hi⟩).length : Int) + (c.length : Int)
            - (if i = 0 then 2 else 0) > 12
        · rw [if_pos hguard] at h
          cases hlast : (c.get ⟨i, hi⟩).getLast? with
          | none =>
              rw [hlast] at h
              cases h
          | some value =>
              rw [hlast] at h
              rw [ih _ _ _ h]
              exact evict_msum c i hi value hlast
        · rw [if_neg hguard] at h
          exact ih _ _ _ h
      · rw [dif_neg hi] at h
        cases h
        rfl

theorem reorganize_guard (fuel : Nat) :
    ∀ (c : List (List Nat)) (i : Nat) (b : List (List Nat)),
      reorganize fuel c i = .ok b →
      (∀ j (hj : j < c.length), j < i →
        ((c.get ⟨j, hj⟩).length : Int) + (c.length : Int)
          - (if j = 0 then 2 else 0) ≤ 12) →
      ∀ j (hj : j < b.length),
        ((b.get ⟨j, hj⟩).length : Int) + (b.length : Int)
          - (if j = 0 then 2 else 0) ≤ 12 := by
  induction fuel with
  | zero => intro c i b h; cases h
  | succ fuel ih =>
      intro c i b h hpre
      simp only [reorganize] at h
      by_cases hi : i < c.length
      · rw [dif_pos hi] at h
        by_cases hguard : ((c.get ⟨i, hi⟩).length : Int) + (c.length : Int)
            - (if i = 0 then 2 else 0) > 12
        · rw [if_pos hguard] at h
          cases hlast : (c.get ⟨i, hi⟩).getLast? with
          | none =>
              rw [hlast] at h
              cases h
          | some value =>
              rw [hlast] at h
              exact ih _ _ _ h (fun j hj hj0 => absurd hj0 (by omega))
        · rw [if_neg hguard] at h
          apply ih c (i + 1) b h
          intro j hj hji
          by_cases hje : j = i
          · subst hje
            push_neg at hguard
            exact hguard
          · exact hpre j hj (by omega)
      · rw [dif_neg hi] at h
        cases h
        intro j hj
        exact hpre j hj (by omega)

/-- C1 (amended): whenever the reorganization loop terminates normally on an
accumulated reference list, every bucket `j` of the result satisfies
`len(bucket j) + number-of-buckets − (2 if j = 0 else 0) ≤ 12` — in
particular a single bucket may legitimately hold 13 references — and the
multiset union of all bucket contents equals the original reference list
exactly, with no duplicates and no omissions. (Termination for every list
shorter than 120 is refuted by `reorganize_cex`.) -/
theorem reorganize_spec (fuel : Nat) (refs : List Nat) (buckets : List (List Nat))
    (h : reorganize fuel [refs] 0 = .ok buckets) :
    (∀ j (hj : j < buckets.length),
      ((buckets.get ⟨j, hj⟩).length : Int) + (buckets.length : Int)
        - (if j = 0 then 2 else 0) ≤ 12) ∧
    buckets.flatten.Perm refs := by
  constructor
  · exact reorganize_guard fuel [refs] 0 buckets h
      (fun j hj hj0 => absurd hj0 (by omega))
  · have hm := reorganize_msum fuel [refs] 0 buckets h
    have hcoe : (buckets.flatten : Multiset Nat) = (refs : Multiset Nat) := by
      rw [msum_flatten, hm, msum_cons, msum_nil, add_zero]
    exact Multiset.coe_eq_coe.mp hcoe

/-- Witness for `reorganize_spec`: thirteen references settle (into a single
bucket) and the splitter loses none of them. -/
theorem reorganize_spec_witness :
    ([List.range 13] : List (List Nat)).flatten.Perm (List.range 13) :=
  (reorganize_spec 100 (List.range 13) [List.range 13] (by decide)).2

set_option maxRecDepth 1000000 in
/-- C1 counterexample: the claim fails as stated. With 13 accumulated
references (below 120) the loop terminates with its single bucket holding 13
references, exceeding the cap of 12; and with 39 accumulated references
(also below 120) the loop does not terminate normally at all — it pops from
an empty bucket and raises `IndexError`. -/
theorem reorganize_cex :
    (reorganize 100 [List.range 13] 0 = .ok [List.range 13] ∧
      ¬ (List.range 13).length ≤ 12) ∧
    (reorganize 3200 [List.range 39] 0 = .indexError ∧
      (List.range 39).length < 120) := by
  refine ⟨⟨by decide, by decide⟩, ?_, by decide⟩
  decide

/-! ### The XML roundtrip: numeral and date lemmas -/

theorem intRepr_ne_nil (i : Int) : intRepr i ≠ [] := by
  unfold intRepr
  by_cases h : i < 0
  · rw [if_pos h]
    simp
  · rw [if_neg h]
    exact natRepr_ne_nil _

theorem natDigitsAux_length {fuel n w : Nat} (hf : n ≤ fuel) (hw : n < 10 ^ w) :
    (natDigitsAux fuel n).length ≤ w := by
  induction fuel generalizing n w with
  | zero =>
      interval_cases n
      simp [natDigitsAux]
  | succ fuel ih =>
      cases n with
      | zero => simp [natDigitsAux]
      | succ m =>
          cases w with
          | zero =>
              rw [pow_zero] at hw
              omega
          | succ w =>
              rw [natDigitsAux_head]
              have hdivf : (m + 1) / 10 ≤ fuel := by
                have := Nat.div_lt_self (Nat.succ_pos m) (by norm_num : 1 < 10)
                omega
              have hdivw : (m + 1) / 10 < 10 ^ w := by
                rw [Nat.div_lt_iff_lt_mul (by norm_num : 0 < 10)]
                calc m + 1 < 10 ^ (w + 1) := hw
                _ = 10 ^ w * 10 := by ring
              have := ih hdivf hdivw
              simp only [List.length_cons]
              omega

theorem natRepr_length_le {n w : Nat} (hw1 : 1 ≤ w) (hw : n < 10 ^ w) :
    (natRepr n).length ≤ w := by
  unfold natRepr
  by_cases h : n = 0
  · rw [if_pos h]
    simpa using hw1
  · rw [if_neg h]
    simpa [natDigits] using natDigitsAux_length le_rfl hw

theorem natVal_replicate_zero (k : Nat) (s : Str) :
    natVal (List.replicate k '0' ++ s) = natVal s := by
  unfold natVal
  rw [List.foldl_append]
  congr 1
  induction k with
  | zero => rfl
  | succ k ih => rw [List.replicate_succ, List.foldl_cons]; simpa using ih

theorem padRepr_length {n w : Nat} (hw1 : 1 ≤ w) (hw : n < 10 ^ w) :
    (padRepr w n).length = w := by
  unfold padRepr
  have := natRepr_length_le hw1 hw
  simp only [List.length_append, List.length_replicate]
  omega

theorem padRepr_all_digits (w n : Nat) : (padRepr w n).all Char.isDigit = true := by
  unfold padRepr
  rw [List.all_append, Bool.and_eq_true]
  constructor
  · rw [List.all_eq_true]
    intro c hc
    rw [List.eq_of_mem_replicate hc]
    decide
  · exact natRepr_all_digits n

theorem natVal_padRepr (w n : Nat) : natVal (padRepr w n) = n := by
  unfold padRepr
  rw [natVal_replicate_zero, natVal_natRepr]

theorem parseDigits_pad {w n : Nat} (rest : Str) (hw1 : 1 ≤ w) (hw : n < 10 ^ w) :
    parseDigits w (padRepr w n ++ rest) = some (n, rest) := by
  unfold parseDigits
  have hlen : (padRepr w n).length = w := padRepr_length hw1 hw
  have htake : (padRepr w n ++ rest).take w = padRepr w n := List.take_left' hlen
  have hdrop : (padRepr w n ++ rest).drop w = rest := List.drop_left' hlen
  rw [htake, hdrop]
  rw [if_pos ⟨hlen, padRepr_all_digits w n⟩]
  rw [natVal_padRepr]

theorem expectChar_cons (c : Char) (rest : Str) : expectChar c (c :: rest) = some rest := by
  simp [expectChar]

theorem strptime_iso_isoformat {d : DateTime} (hv : d.pyvalid) (hms : d.microsecond = 0) :
    strptime_iso d.isoformat = some d := by
  obtain ⟨hy1, hy2, hmo1, hmo2, hd1, hd2, hh, hmi, hse, hus⟩ := hv
  have hiso : d.isoformat =
      padRepr 4 d.year ++ '-' :: (padRepr 2 d.month ++ '-' :: (padRepr 2 d.day ++
      'T' :: (padRepr 2 d.hour ++ ':' :: (padRepr 2 d.minute ++ ':' ::
      (padRepr 2 d.second ++ []))))) := by
    unfold DateTime.isoformat
    rw [if_pos hms]
    simp
  rw [hiso]
  unfold strptime_iso
  rw [parseDigits_pad _ (by norm_num) (by omega)]
  simp only [Option.bind_eq_bind, Option.some_bind]
  rw [expectChar_cons]
  simp only [Option.bind_eq_bind, Option.some_bind]
  rw [parseDigits_pad _ (by norm_num) (by omega)]
  simp only [Option.bind_eq_bind, Option.some_bind]
  rw [expectChar_cons]
  simp only [Option.bind_eq_bind, Option.some_bind]
  rw [parseDigits_pad _ (by norm_num) (by omega)]
  simp only [Option.bind_eq_bind, Option.some_bind]
  rw [expectChar_cons]
  simp only [Option.bind_eq_bind, Option.some_bind]
  rw [parseDigits_pad _ (by norm_num) (by omega)]
  simp only [Option.bind_eq_bind, Option.some_bind]
  rw [expectChar_cons]
  simp only [Option.bind_eq_bind, Option.some_bind]
  rw [parseDigits_pad _ (by norm_num) (by omega)]
  simp only [Option.bind_eq_bind, Option.some_bind]
  rw [expectChar_cons]
  simp only [Option.bind_eq_bind, Option.some_bind]
  rw [parseDigits_pad _ (by norm_num) (by omega)]
  simp only [Option.bind_eq_bind, Option.some_bind]
  rw [if_pos ?_]
  · cases d
    simp at hms
    subst hms
    rfl
  · refine ⟨by trivial, ?_⟩
    unfold DateTime.pyvalid
    refine ⟨hy1, hy2, hmo1, hmo2, hd1, hd2, hh, hmi, hse, by norm_num⟩

theorem isoformat_length {d : DateTime} (hv : d.pyvalid) (hms : d.microsecond = 0) :
    d.isoformat.length = 19 := by
  obtain ⟨hy1, hy2, hmo1, hmo2, hd1, hd2, hh, hmi, hse, hus⟩ := hv
  unfold DateTime.isoformat
  rw [if_pos hms]
  simp only [List.length_append, List.length_cons, List.append_nil]
  rw [padRepr_length (by norm_num) (by omega : d.year < 10 ^ 4),
    padRepr_length (by norm_num) (by omega : d.month < 10 ^ 2),
    padRepr_length (by norm_num) (by omega : d.day < 10 ^ 2),
    padRepr_length (by norm_num) (by omega : d.hour < 10 ^ 2),
    padRepr_length (by norm_num) (by omega : d.minute < 10 ^ 2),
    padRepr_length (by norm_num) (by omega : d.second < 10 ^ 2)]

theorem parse_date_isoformat {d : DateTime} (hv : d.pyvalid) (hms : d.microsecond = 0) :
    parse_date d.isoformat = .ok d := by
  unfold parse_date parse_iso8601
  rw [List.take_of_length_le (by rw [isoformat_length hv hms])]
  rw [strptime_iso_isoformat hv hms]

/-! ### The XML roundtrip: per-field steps -/

theorem toLower_digit {c : Char} (h : c.isDigit = true) : c.toLower = c := by
  apply char_eq_of_toNat_eq
  rw [toLower_toNat]
  unfold Char.isDigit at h
  simp only [Bool.and_eq_true, decide_eq_true_eq] at h
  have h48 : 48 ≤ c.toNat := by
    have := h.1
    unfold Char.toNat
    exact this
  have h57 : c.toNat ≤ 57 := by
    have := h.2
    unfold Char.toNat
    exact this
  rw [if_neg (by omega)]

theorem strLower_digits {s : Str} (h : s.all Char.isDigit = true) : strLower s = s := by
  unfold strLower
  rw [List.all_eq_true] at h
  induction s with
  | nil => rfl
  | cons c rest ih =>
      rw [List.map_cons, toLower_digit (h c (List.mem_cons_self c rest)),
        ih (fun d hd => h d (List.mem_cons_of_mem _ hd))]

theorem digits_ne_sg {s : Str} (h : s.all Char.isDigit = true) :
    s ≠ "standardgruppe".data := by
  intro he
  rw [he] at h
  exact absurd h (by decide)

theorem parse_group_id_intRepr {g : Int} (hg : 0 ≤ g) :
    parse_group_id (intRepr g) = .ok g := by
  have hrep : intRepr g = natRepr g.natAbs := by
    unfold intRepr
    rw [if_neg (by omega)]
  unfold parse_group_id
  rw [hrep, strLower_digits (natRepr_all_digits _)]
  rw [if_neg (digits_ne_sg (natRepr_all_digits _))]
  rw [List.filter_eq_self.mpr]
  · rw [int_parse_natRepr]
    congr 1
    omega
  · intro c hc
    have := natRepr_all_digits g.natAbs
    rw [List.all_eq_true] at this
    exact this c hc

theorem finset_fold_union (gs : List Int) :
    ∀ acc : Finset Int, gs.foldl (fun a g => {g} ∪ a) acc = acc ∪ gs.toFinset := by
  induction gs with
  | nil => intro acc; simp
  | cons g rest ih =>
      intro acc
      rw [List.foldl_cons, ih]
      ext a
      simp only [Finset.mem_union, Finset.mem_singleton, List.toFinset_cons,
        Finset.mem_insert]
      tauto

theorem mem_ascListOfMultiset {a : Int} {m : Multiset Int} :
    a ∈ ascListOfMultiset m ↔ a ∈ m := by
  induction m using Quot.inductionOn with
  | h l =>
      show a ∈ (l.insertionSort (· ≤ ·)) ↔ a ∈ (l : Multiset Int)
      rw [(List.perm_insertionSort _ l).mem_iff]
      exact (Multiset.mem_coe).symm

theorem groupAscList_toFinset (G : Finset Int) : (groupAscList G).toFinset = G := by
  ext a
  rw [List.mem_toFinset]
  unfold groupAscList
  rw [mem_ascListOfMultiset]
  exact Iff.rfl

theorem except_bind_ok {α β : Type} {x : Except PyError α} {a : α} (h : x = .ok a)
    (f : α → Except PyError β) : (x >>= f) = f a := by
  rw [h]
  rfl

theorem except_bind_ok_at {α β : Type} (x : Except PyError α) {a : α} (h : x = .ok a)
    (f : α → Except PyError β) : (x >>= f) = f a :=
  except_bind_ok h f

theorem foldlM_cons_ok {l : List XmlElem} {st t : Student} {e : XmlElem}
    (h1 : applyElem st e = .ok t) :
    (e :: l).foldlM applyElem st = l.foldlM applyElem t := by
  rw [List.foldlM_cons, h1]
  rfl

theorem sfx_matrnr (st : Student) (v : Str) :
    st.set_from_xml "matriculation-number".data (some v) =
      (int_parse v) >>= (fun n => .ok { st with matrnr := n }) := rfl

theorem sfx_group (st : Student) (v : Str) :
    st.set_from_xml "group".data (some v) =
      (parse_group_id v) >>= (fun g => .ok { st with group := {g} ∪ st.group }) := rfl

theorem sfx_lastname (st : Student) (t : Option Str) :
    st.set_from_xml "lastname".data t = .ok { st with lastname := strOfText t } := rfl

theorem sfx_firstname (st : Student) (t : Option Str) :
    st.set_from_xml "firstname".data t = .ok { st with firstname := strOfText t } := rfl

theorem sfx_wikiname (st : Student) (t : Option Str) :
    st.set_from_xml "wikiname".data t = .ok { st with wikinameStored := strOfText t } := rfl

theorem sfx_degree (st : Student) (t : Option Str) :
    st.set_from_xml "degree-programme".data t = .ok { st with degree := strOfText t } := rfl

theorem sfx_regdate (st : Student) (t : Option Str) :
    st.set_from_xml "registration-date".data t =
      (parse_date (strOfText t)) >>= (fun d => .ok { st with regdate := d }) := rfl

theorem sfx_email (st : Student) (t : Option Str) :
    st.set_from_xml "email".data t = .ok { st with email := strOfText t } := rfl

theorem sfx_grade (st : Student) (v : Str) :
    st.set_from_xml "grade".data (some v) =
      (int_parse v) >>= (fun n => .ok { st with grade := n }) := rfl

theorem elem_nonempty {tag v : Str} (hv : v ≠ []) : elem tag v = ⟨tag, some v⟩ := by
  unfold elem
  rw [if_pos hv]

theorem group_fold (gs : List Int) (hpos : ∀ g ∈ gs, 0 ≤ g) :
    ∀ st : Student,
      (gs.map (fun g => elem "group".data (intRepr g))).foldlM applyElem st =
        .ok { st with group := gs.foldl (fun a g => {g} ∪ a) st.group } := by
  induction gs with
  | nil =>
      intro st
      rw [List.map_nil, List.foldlM_nil, List.foldl_nil]
      rfl
  | cons g rest ih =>
      intro st
      rw [List.map_cons]
      rw [foldlM_cons_ok (t := { st with group := {g} ∪ st.group }) ?_]
      · rw [ih (fun x hx => hpos x (List.mem_cons_of_mem _ hx))]
        rw [List.foldl_cons]
      · unfold applyElem
        rw [elem_nonempty (intRepr_ne_nil g)]
        show st.set_from_xml "group".data (some (intRepr g)) = _
        rw [sfx_group, except_bind_ok (parse_group_id_intRepr (hpos g (List.mem_cons_self g rest)))]

/-- The shape a student record takes after an XML roundtrip: every field as
before, with the derived identity now stored as an explicit override. -/
def parsedForm (s : Student) : Student := { s with wikinameStored := s.wikiname }

/-- Intermediate states of re-parsing one serialized student, element by
element, starting from a fresh `Student()`. -/
def rtA (s : Student) : Student := { defaultStudent with matrnr := s.matrnr }

def rtB (s : Student) : Student := { rtA s with group := s.group }

def rtC (s : Student) : Student := { rtB s with lastname := s.lastname }

def rtD (s : Student) : Student := { rtC s with firstname := s.firstname }

def rtW (s : Student) : Student := { rtD s with wikinameStored := s.wikiname }

def rtE (s : Student) : Student := { rtW s with degree := s.degree }

def rtF (s : Student) : Student := { rtE s with regdate := s.regdate }

def rtG (s : Student) : Student := { rtF s with email := s.email }

def rtH (s : Student) : Student := { rtG s with grade := s.grade }

theorem rtH_eq (s : Student) : rtH s = parsedForm s := by
  cases s
  rfl

set_option maxHeartbeats 2000000 in
theorem buildStudent_to_xml (s : Student)
    (hl : s.lastname ≠ []) (hf : s.firstname ≠ []) (he : s.email ≠ [])
    (hw : s.wikiname ≠ []) (hvd : s.regdate.pyvalid) (hms : s.regdate.microsecond = 0)
    (hg : ∀ g ∈ s.group, 0 ≤ g) :
    buildStudent (Student.to_xml s) = .ok (parsedForm s) := by
  have hposasc : ∀ g ∈ groupAscList s.group, 0 ≤ g := by
    intro g hgl
    exact hg g (Finset.mem_def.mpr (mem_ascListOfMultiset.mp hgl))
  have hiso_ne : s.regdate.isoformat ≠ [] := by
    intro hcon
    have hlen := isoformat_length hvd hms
    rw [hcon] at hlen
    simp at hlen
  have hA : ([elem "matriculation-number".data (intRepr s.matrnr)]).foldlM
      applyElem defaultStudent = .ok (rtA s) := by
    rw [foldlM_cons_ok (t := rtA s) ?_, List.foldlM_nil]
    · rfl
    · unfold applyElem
      rw [elem_nonempty (intRepr_ne_nil _)]
      show defaultStudent.set_from_xml "matriculation-number".data
        (some (intRepr s.matrnr)) = _
      rw [sfx_matrnr, except_bind_ok (int_parse_intRepr s.matrnr)]
      rfl
  have hGval : (groupAscList s.group).foldl (fun a g => {g} ∪ a) (rtA s).group =
      s.group := by
    show (groupAscList s.group).foldl (fun a g => {g} ∪ a) (∅ : Finset Int) = s.group
    rw [finset_fold_union, groupAscList_toFinset, Finset.empty_union]
  have hB : ([elem "matriculation-number".data (intRepr s.matrnr)] ++
      (groupAscList s.group).map (fun g => elem "group".data (intRepr g))).foldlM
      applyElem defaultStudent = .ok (rtB s) := by
    rw [List.foldlM_append, except_bind_ok hA, group_fold _ hposasc (rtA s), hGval]
    rfl
  have hC : (([elem "matriculation-number".data (intRepr s.matrnr)] ++
      (groupAscList s.group).map (fun g => elem "group".data (intRepr g))) ++
      [elem "lastname".data s.lastname, elem "firstname".data s.firstname,
       elem "wikiname".data s.wikiname]).foldlM applyElem defaultStudent =
      .ok (rtW s) := by
    rw [List.foldlM_append, except_bind_ok hB]
    rw [foldlM_cons_ok (t := rtC s) ?_]
    · rw [foldlM_cons_ok (t := rtD s) ?_]
      · rw [foldlM_cons_ok (t := rtW s) ?_, List.foldlM_nil]
        · rfl
        · unfold applyElem
          rw [elem_nonempty hw]
          rfl
      · unfold applyElem
        rw [elem_nonempty hf]
        rfl
    · unfold applyElem
      rw [elem_nonempty hl]
      rfl
  have hD : ((([elem "matriculation-number".data (intRepr s.matrnr)] ++
      (groupAscList s.group).map (fun g => elem "group".data (intRepr g))) ++
      [elem "lastname".data s.lastname, elem "firstname".data s.firstname,
       elem "wikiname".data s.wikiname]) ++
      (if s.degree ≠ [] then [elem "degree-programme".data s.degree] else [])).foldlM
      applyElem defaultStudent = .ok (rtE s) := by
    rw [List.foldlM_append, except_bind_ok hC]
    by_cases hdeg : s.degree = []
    · rw [if_neg (by simp [hdeg]), List.foldlM_nil]
      show Except.ok (rtW s) = Except.ok (rtE s)
      unfold rtE
      rw [hdeg]
      rfl
    · rw [if_pos hdeg]
      rw [foldlM_cons_ok (t := rtE s) ?_, List.foldlM_nil]
      · rfl
      · unfold applyElem
        rw [elem_nonempty hdeg]
        rfl
  have hF : (((([elem "matriculation-number".data (intRepr s.matrnr)] ++
      (groupAscList s.group).map (fun g => elem "group".data (intRepr g))) ++
      [elem "lastname".data s.lastname, elem "firstname".data s.firstname,
       elem "wikiname".data s.wikiname]) ++
      (if s.degree ≠ [] then [elem "degree-programme".data s.degree] else [])) ++
      [elem "registration-date".data s.regdate.isoformat,
       elem "email".data s.email]).foldlM applyElem defaultStudent =
      .ok (rtG s) := by
    rw [List.foldlM_append, except_bind_ok hD]
    rw [foldlM_cons_ok (t := rtF s) ?_]
    · rw [foldlM_cons_ok (t := rtG s) ?_, List.foldlM_nil]
      · rfl
      · unfold applyElem
        rw [elem_nonempty he]
        rfl
    · unfold applyElem
      rw [elem_nonempty hiso_ne]
      show Student.set_from_xml _ "registration-date".data
        (some s.regdate.isoformat) = _
      rw [sfx_regdate]
      rw [except_bind_ok_at (parse_date (strOfText (some s.regdate.isoformat)))
        (parse_date_isoformat hvd hms)]
      rfl
  unfold buildStudent Student.to_xml
  rw [List.foldlM_append, except_bind_ok hF]
  by_cases hgr : s.grade = 0
  · rw [if_neg (by simp [hgr]), List.foldlM_nil]
    show Except.ok (rtG s) = Except.ok (parsedForm s)
    rw [← rtH_eq]
    unfold rtH
    rw [hgr]
    rfl
  · rw [if_pos hgr]
    rw [foldlM_cons_ok (t := rtH s) ?_, List.foldlM_nil]
    · rw [rtH_eq]
      rfl
    · unfold applyElem
      rw [elem_nonempty (intRepr_ne_nil _)]
      show Student.set_from_xml _ "grade".data (some (intRepr s.grade)) = _
      rw [sfx_grade, except_bind_ok (int_parse_intRepr s.grade)]
      rfl

/-! ### The XML roundtrip: whole-roster theorems -/

/-- Equality in all the fields the spec names: matriculation number, groups,
names, identity (the effective wikiname), degree, registration timestamp,
email and grade. -/
def sameFields (a b : Student) : Prop :=
  a.matrnr = b.matrnr ∧ a.group = b.group ∧ a.lastname = b.lastname ∧
  a.firstname = b.firstname ∧ a.wikiname = b.wikiname ∧ a.degree = b.degree ∧
  a.regdate = b.regdate ∧ a.email = b.email ∧ a.grade = b.grade

theorem parsedForm_wikiname {s : Student} (hw : s.wikiname ≠ []) :
    (parsedForm s).wikiname = s.wikiname := by
  unfold parsedForm Student.wikiname
  rw [if_pos]
  exact hw

theorem parsedForm_sameFields {s : Student} (hw : s.wikiname ≠ []) :
    sameFields (parsedForm s) s :=
  ⟨rfl, rfl, rfl, rfl, parsedForm_wikiname hw, rfl, rfl, rfl, rfl⟩

theorem rosterInvariants_sublist {l l' : Roster} (hs : l'.Sublist l)
    (h : rosterInvariants l) : rosterInvariants l' :=
  ⟨h.1.sublist (hs.map _), h.2.1.sublist (hs.map _),
   fun s hm => h.2.2 s (hs.subset hm)⟩

theorem rosterInvariants_perm {l l' : Roster} (hp : l.Perm l')
    (h : rosterInvariants l) : rosterInvariants l' :=
  ⟨((hp.map Student.matrnr).nodup_iff).mp h.1,
   ((hp.map Student.wikiname).nodup_iff).mp h.2.1,
   fun s hm => h.2.2 s (hp.mem_iff.mpr hm)⟩

theorem from_xml_fold (ss : List Student)
    (hbuilds : ∀ s ∈ ss, buildStudent (Student.to_xml s) = .ok (parsedForm s)) :
    ∀ acc : Roster, rosterInvariants (acc ++ ss.map parsedForm) →
      (ss.map Student.to_xml).foldlM fromXmlStep acc = .ok (acc ++ ss.map parsedForm) := by
  induction ss with
  | nil =>
      intro acc _
      rw [List.map_nil, List.foldlM_nil, List.map_nil, List.append_nil]
      rfl
  | cons s rest ih =>
      intro acc hinv
      have hshape : acc ++ (s :: rest).map parsedForm =
          (acc ++ [parsedForm s]) ++ rest.map parsedForm := by
        simp
      have hnc : dbContains acc (parsedForm s) = false := by
        rw [dbContains, List.any_eq_false]
        intro t ht
        simp only [beq_iff_eq]
        intro he
        have hnd := hinv.1
        rw [List.map_append, List.nodup_append] at hnd
        apply hnd.2.2 (List.mem_map_of_mem Student.matrnr ht)
        rw [List.map_cons, List.map_cons, he]
        exact List.mem_cons_self _ _
      have hsub : (acc ++ [parsedForm s]).Sublist
          (acc ++ (s :: rest).map parsedForm) := by
        rw [hshape]
        exact List.sublist_append_left _ _
      have hcons : consistency_check (acc ++ [(parsedForm s).copy]) = .ok () := by
        rw [Student.copy_eq]
        exact (consistency_check_ok_iff _).mpr (rosterInvariants_sublist hsub hinv)
      have hstep : fromXmlStep acc (Student.to_xml s) = .ok (acc ++ [parsedForm s]) := by
        unfold fromXmlStep
        rw [except_bind_ok (hbuilds s (List.mem_cons_self s rest))]
        unfold StudentDatabase.add
        rw [if_neg (by simp [hnc])]
        rw [except_bind_ok_at (consistency_check (acc ++ [(parsedForm s).copy])) hcons]
        rw [Student.copy_eq]
      rw [List.map_cons, List.foldlM_cons, hstep]
      show ((rest.map Student.to_xml).foldlM fromXmlStep (acc ++ [parsedForm s])) = _
      rw [ih (fun t ht => hbuilds t (List.mem_cons_of_mem _ ht))
        (acc ++ [parsedForm s]) (by rw [← hshape]; exact hinv)]
      rw [hshape]

theorem to_xml_ok (db : Roster) (hinv : rosterInvariants db) :
    StudentDatabase.to_xml db =
      .ok ((db.insertionSort (fun s t => s.matrnr ≤ t.matrnr)).map Student.to_xml) := by
  unfold StudentDatabase.to_xml sorted_by_matrnr
  have hperm : (db.insertionSort (fun s t => s.matrnr ≤ t.matrnr)).Perm db :=
    List.perm_insertionSort _ db
  rw [except_bind_ok (mkStudentDatabase_ok_of_invariants
    (rosterInvariants_perm hperm.symm hinv))]

theorem map_parsedForm_forall₂ (l : List Student) (hw : ∀ s ∈ l, s.wikiname ≠ []) :
    List.Forall₂ sameFields (l.map parsedForm) l := by
  induction l with
  | nil => exact List.Forall₂.nil
  | cons s rest ih =>
      exact List.Forall₂.cons
        (parsedForm_sameFields (hw s (List.mem_cons_self s rest)))
        (ih (fun t ht => hw t (List.mem_cons_of_mem _ ht)))

theorem rosterInvariants_map_parsedForm {l : Roster} (hinv : rosterInvariants l)
    (hw : ∀ s ∈ l, s.wikiname ≠ []) : rosterInvariants (l.map parsedForm) := by
  refine ⟨?_, ?_, ?_⟩
  · rw [List.map_map]
    have hcomp : Student.matrnr ∘ parsedForm = Student.matrnr := funext (fun s => rfl)
    rw [hcomp]
    exact hinv.1
  · rw [List.map_map]
    have hcomp : l.map (Student.wikiname ∘ parsedForm) = l.map Student.wikiname :=
      List.map_congr_left (fun s hs => parsedForm_wikiname (hw s hs))
    rw [hcomp]
    exact hinv.2.1
  · intro t ht
    rw [List.mem_map] at ht
    obtain ⟨u, hu, rfl⟩ := ht
    exact hinv.2.2 u hu

/-- C3 (amended): for a valid roster in which every record has non-empty
last name, first name, email and derived identity, a valid registration
timestamp with zero microseconds, and non-negative group numbers,
serialization to the XML exchange form succeeds, re-parsing the result
succeeds, and the re-parsed roster is a permutation (ordered by
matriculation number) of the original, equal record by record in all fields:
matriculation number, groups, names, identity, degree, registration
timestamp, email and grade. (Sub-second timestamp precision is lost by
re-parsing and empty text fields come back as the string None, refuted by
`xml_roundtrip_cex`.) -/
theorem xml_roundtrip_spec (db : Roster) (hinv : rosterInvariants db)
    (hfields : ∀ s ∈ db, s.lastname ≠ [] ∧ s.firstname ≠ [] ∧ s.email ≠ [] ∧
      s.wikiname ≠ [] ∧ s.regdate.pyvalid ∧ s.regdate.microsecond = 0 ∧
      ∀ g ∈ s.group, 0 ≤ g) :
    StudentDatabase.to_xml db =
      .ok ((db.insertionSort (fun s t => s.matrnr ≤ t.matrnr)).map Student.to_xml) ∧
    StudentDatabase.from_xml
      ((db.insertionSort (fun s t => s.matrnr ≤ t.matrnr)).map Student.to_xml) =
      .ok ((db.insertionSort (fun s t => s.matrnr ≤ t.matrnr)).map parsedForm) ∧
    List.Forall₂ sameFields
      ((db.insertionSort (fun s t => s.matrnr ≤ t.matrnr)).map parsedForm)
      (db.insertionSort (fun s t => s.matrnr ≤ t.matrnr)) ∧
    (db.insertionSort (fun s t => s.matrnr ≤ t.matrnr)).Perm db := by
  have hperm : (db.insertionSort (fun s t => s.matrnr ≤ t.matrnr)).Perm db :=
    List.perm_insertionSort _ db
  have hmem : ∀ s ∈ db.insertionSort (fun s t => s.matrnr ≤ t.matrnr), s ∈ db :=
    fun s hs => hperm.subset hs
  have hsinv : rosterInvariants (db.insertionSort (fun s t => s.matrnr ≤ t.matrnr)) :=
    rosterInvariants_perm hperm.symm hinv
  refine ⟨to_xml_ok db hinv, ?_, ?_, hperm⟩
  · unfold StudentDatabase.from_xml
    have hfold := from_xml_fold (db.insertionSort (fun s t => s.matrnr ≤ t.matrnr))
      (fun s hs => by
        obtain ⟨h1, h2, h3, h4, h5, h6, h7⟩ := hfields s (hmem s hs)
        exact buildStudent_to_xml s h1 h2 h3 h4 h5 h6 h7)
      []
      (by
        rw [List.nil_append]
        exact rosterInvariants_map_parsedForm hsinv
          (fun s hs => (hfields s (hmem s hs)).2.2.2.1))
    rw [List.nil_append] at hfold
    exact hfold
  · exact map_parsedForm_forall₂ _ (fun s hs => (hfields s (hmem s hs)).2.2.2.1)

/-- A concrete fully-populated student with a whole-second timestamp. -/
def rtStudent : Student := { defaultStudent with matrnr := 1, group := {1}, lastname := "Doe".data, firstname := "Jo".data, regdate := ⟨2014, 10, 18, 23, 47, 6, 0⟩, email := "jo@example.org".data }

/-- Witness for `xml_roundtrip_spec` on a concrete one-student roster. -/
theorem xml_roundtrip_spec_witness :
    StudentDatabase.from_xml
      (([rtStudent].insertionSort (fun s t => s.matrnr ≤ t.matrnr)).map Student.to_xml) =
      .ok (([rtStudent].insertionSort (fun s t => s.matrnr ≤ t.matrnr)).map parsedForm) :=
  (xml_roundtrip_spec [rtStudent] (by decide) (by decide)).2.1

/-- The same student, but with a microsecond-precision registration
timestamp, exactly as `datetime.now().isoformat()` produces. -/
def cexStudent : Student :=
  { rtStudent with regdate := ⟨2014, 10, 18, 23, 47, 6, 722897⟩ }

/-- What the roundtrip actually returns for `cexStudent`: the microseconds
are gone, because `parse_iso8601` truncates the serialized timestamp to its
first 19 characters. -/
def cexParsed : Student := { cexStudent with wikinameStored := "JoDoe".data, regdate := ⟨2014, 10, 18, 23, 47, 6, 0⟩ }

/-- C3 counterexample: serializing the valid one-student roster
`[cexStudent]` and re-parsing it succeeds but yields a roster whose
registration timestamp differs from the original — the claim that the
re-parsed roster is equal in all fields fails. -/
theorem xml_roundtrip_cex :
    (StudentDatabase.to_xml [cexStudent] >>= StudentDatabase.from_xml) =
      .ok [cexParsed] ∧
    cexParsed.regdate ≠ cexStudent.regdate :=
  ⟨by decide, by decide⟩

end GdiControl
